import Mathlib

/-!
Verification of the EXCELCIVIL construction-pricing search engine.

This file gives a shallow embedding, in Lean 4, of the core algorithms of the
repository (text normalization, BTP tokenization, spelling correction, synonym
expansion, the tiered search pipeline of `search_engine.py`, the hierarchical
catalog-tree builder and scope-resolving search of `recup/backend.py`), and
proves or refutes the frozen specification claims about them.

Modelling conventions:
- Python strings are `String` / `List Char`; machine text operations
  (`str.lower`, `unicodedata.normalize("NFD", ...)`, category `Mn` tests,
  the word-character class of `re`'s `\w`) are embedded through explicit
  character tables restricted to the character repertoire actually used by
  the program (ASCII plus the French accented letters appearing in its data);
  characters outside the tables are treated as fixed points, mirroring that
  the program never produces others.
- Python `dict`s are association lists in insertion order (later assignment
  to an existing key overwrites in place); Python `set`s are duplicate-free
  lists in first-insertion order.  No claim below depends on the iteration
  order of a Python set, only on membership and cardinality.
- Pandas data frames are lists of rows scanned in order; the row index is the
  position in the list.
- Fallible inputs (a JSON file that is missing or unparseable) are `Option`
  values, `none` meaning the load failed.
-/

namespace ExcelCivil

/-- Association-list lookup: first binding wins (Python reads of a dict whose
keys are unique behave identically). -/
def alookup {κ α : Type} [DecidableEq κ] (k : κ) : List (κ × α) → Option α
  | [] => none
  | (k2, v) :: rest => if k = k2 then some v else alookup k rest

/-- Python `dict[k] = v`: overwrite the existing binding in place, else append. -/
def adictSet {κ α : Type} [DecidableEq κ] (m : List (κ × α)) (k : κ) (v : α) :
    List (κ × α) :=
  if (alookup k m).isSome then
    m.map (fun p => if p.1 = k then (p.1, v) else p)
  else m ++ [(k, v)]

/-- Python `set(...)` of a list: duplicate-free, first occurrence kept. -/
def pySet {α : Type} [DecidableEq α] (l : List α) : List α :=
  l.foldl (fun acc x => if x ∈ acc then acc else acc ++ [x]) []

/-- Python `s.update(xs)` on a set modelled as a duplicate-free list. -/
def pySetUnion {α : Type} [DecidableEq α] (a : List α) (xs : List α) : List α :=
  xs.foldl (fun acc x => if x ∈ acc then acc else acc ++ [x]) a

-- ================================================================================
-- text_processor.py
-- ================================================================================

/-- `str.lower()` character table: ASCII A-Z plus the accented capitals the
program can meet.  Characters absent from the table are unchanged. -/
def LOWER_TABLE : List (Char × Char) :=
  [('A','a'),('B','b'),('C','c'),('D','d'),('E','e'),('F','f'),('G','g'),
   ('H','h'),('I','i'),('J','j'),('K','k'),('L','l'),('M','m'),('N','n'),
   ('O','o'),('P','p'),('Q','q'),('R','r'),('S','s'),('T','t'),('U','u'),
   ('V','v'),('W','w'),('X','x'),('Y','y'),('Z','z'),
   ('À','à'),('Â','â'),('Ä','ä'),('Ç','ç'),('È','è'),('É','é'),('Ê','ê'),
   ('Ë','ë'),('Î','î'),('Ï','ï'),('Ô','ô'),('Ö','ö'),('Ù','ù'),('Û','û'),
   ('Ü','ü')]

/-- Unicode NFD decomposition table for the accented letters in scope: each
precomposed letter decomposes into its base letter followed by a combining
diacritical mark (category `Mn`, codepoints U+0300..U+036F). -/
def DECOMP_TABLE : List (Char × List Char) :=
  [('à', ['a', '̀']), ('â', ['a', '̂']), ('ä', ['a', '̈']),
   ('ç', ['c', '̧']), ('è', ['e', '̀']), ('é', ['e', '́']),
   ('ê', ['e', '̂']), ('ë', ['e', '̈']), ('î', ['i', '̂']),
   ('ï', ['i', '̈']), ('ô', ['o', '̂']), ('ö', ['o', '̈']),
   ('ù', ['u', '̀']), ('û', ['u', '̂']), ('ü', ['u', '̈'])]

/-- Unicode category `Mn` (combining diacritical marks block). -/
def isMn (c : Char) : Bool := 0x300 ≤ c.toNat && c.toNat ≤ 0x36F

def lowerChar (c : Char) : Char := (alookup c LOWER_TABLE).getD c

def decompChar (c : Char) : List Char := (alookup c DECOMP_TABLE).getD [c]

/-- `TextProcessor.normalize_text` on an actual string: lower-case, decompose
(NFD), drop the combining marks.  The three stages mirror source lines 45-47
of `text_processor.py`. -/
def normalize_text (s : String) : String :=
  String.mk (((s.data.map lowerChar).flatMap decompChar).filter (fun c => !(isMn c)))

/-- A Python value reaching `normalize_text`: the source guards with
`isinstance(text, str)` and returns `""` for anything else. -/
inductive PyVal : Type
  | pyStr (s : String)
  | pyInt (n : Int)
  | pyNone
deriving DecidableEq

def PyVal.isStr : PyVal → Bool
  | .pyStr _ => true
  | _ => false

/-- `TextProcessor.normalize_text` including the dynamic-type guard. -/
def normalize_text_py : PyVal → String
  | .pyStr s => normalize_text s
  | _ => ""

/-- Per-character action of `normalize_text`. -/
def normalizeChar (c : Char) : List Char :=
  (decompChar (lowerChar c)).filter (fun d => !(isMn d))

/-- A character left untouched by every stage of `normalize_text`. -/
def cleanChar (d : Char) : Prop :=
  alookup d LOWER_TABLE = none ∧ alookup d DECOMP_TABLE = none ∧ isMn d = false

instance (d : Char) : Decidable (cleanChar d) := by
  unfold cleanChar; infer_instance

theorem alookup_mem_snd {κ α : Type} [DecidableEq κ] (k : κ) (v : α) :
    ∀ t : List (κ × α), alookup k t = some v → v ∈ t.map Prod.snd := by
  intro t
  induction t with
  | nil => intro h; simp [alookup] at h
  | cons p rest ih =>
    intro h
    by_cases hk : k = p.1
    · simp [alookup, hk] at h
      simp [h]
    · simp only [alookup] at h
      rw [if_neg hk] at h
      simp [ih h]

theorem clean_normalizeChar (d : Char) (h : cleanChar d) : normalizeChar d = [d] := by
  obtain ⟨h1, h2, h3⟩ := h
  simp [normalizeChar, lowerChar, decompChar, h1, h2, h3]

theorem lower_values_clean :
    ∀ v ∈ LOWER_TABLE.map Prod.snd,
      ∀ d ∈ (decompChar v).filter (fun x => !(isMn x)), cleanChar d := by
  decide

theorem decomp_values_clean :
    ∀ L ∈ DECOMP_TABLE.map Prod.snd,
      ∀ d ∈ L.filter (fun x => !(isMn x)), cleanChar d := by
  decide

theorem normalizeChar_clean (c : Char) : ∀ d ∈ normalizeChar c, cleanChar d := by
  intro d hd
  rcases hl : alookup c LOWER_TABLE with _ | v
  · rcases hdm : alookup c DECOMP_TABLE with _ | L
    · -- both lookups miss: the character passes through unchanged
      unfold normalizeChar lowerChar decompChar at hd
      rw [hl] at hd
      simp only [Option.getD_none] at hd
      rw [hdm] at hd
      simp only [Option.getD_none] at hd
      rcases hmn : isMn c with _ | _
      · simp [hmn] at hd
        subst hd
        exact ⟨hl, hdm, hmn⟩
      · simp [hmn] at hd
    · -- the character decomposes: outputs come from the decomposition table
      unfold normalizeChar lowerChar decompChar at hd
      rw [hl] at hd
      simp only [Option.getD_none] at hd
      rw [hdm] at hd
      simp only [Option.getD_some] at hd
      exact decomp_values_clean L (alookup_mem_snd c L _ hdm) d hd
  · -- the character lower-cases: outputs come from the lower-case table
    unfold normalizeChar lowerChar at hd
    rw [hl] at hd
    simp only [Option.getD_some] at hd
    have hv := alookup_mem_snd c v _ hl
    -- a lower-case table value is itself clean after decomposition
    have : ∀ w ∈ LOWER_TABLE.map Prod.snd,
        ∀ d ∈ (decompChar w).filter (fun x => !(isMn x)), cleanChar d :=
      lower_values_clean
    exact this v hv d hd

theorem flatMap_clean_fix (m : List Char) (h : ∀ d ∈ m, cleanChar d) :
    m.flatMap normalizeChar = m := by
  induction m with
  | nil => rfl
  | cons c rest ih =>
    rw [List.flatMap_cons, clean_normalizeChar c (h c (by simp)),
      ih (fun d hd => h d (by simp [hd]))]
    rfl

theorem flatMap_normalizeChar_idem (l : List Char) :
    (l.flatMap normalizeChar).flatMap normalizeChar = l.flatMap normalizeChar := by
  induction l with
  | nil => rfl
  | cons c rest ih =>
    rw [List.flatMap_cons, List.flatMap_append, ih,
      flatMap_clean_fix (normalizeChar c) (normalizeChar_clean c)]

theorem normalize_data (l : List Char) :
    ((l.map lowerChar).flatMap decompChar).filter (fun c => !(isMn c)) =
      l.flatMap normalizeChar := by
  induction l with
  | nil => rfl
  | cons c rest ih =>
    simp only [List.map_cons, List.flatMap_cons, List.filter_append, ih]
    rfl

theorem normalize_text_idem (s : String) :
    normalize_text (normalize_text s) = normalize_text s := by
  unfold normalize_text
  rw [normalize_data, normalize_data, flatMap_normalizeChar_idem]

-- --------------------------------------------------------------------------------
-- TextProcessor.tokenize_btp
-- --------------------------------------------------------------------------------

/-- The accented letters that count as word characters for `re`'s `\w`. -/
def ACCENTED_CHARS : List Char :=
  ['à','â','ä','ç','è','é','ê','ë','î','ï','ô','ö','ù','û','ü',
   'À','Â','Ä','Ç','È','É','Ê','Ë','Î','Ï','Ô','Ö','Ù','Û','Ü']

/-- `re`'s `\w` over the program's character repertoire: ASCII alphanumerics,
underscore, and the accented letters. -/
def isWordChar (c : Char) : Bool := c.isAlphanum || c = '_' || ACCENTED_CHARS.contains c

/-- Python `\s` (ASCII portion). -/
def isPySpace (c : Char) : Bool :=
  c = ' ' || c = '\t' || c = '\n' || c = '\x0d' || c = '\x0b' || c = '\x0c'

/-- Python `str.strip()`: drop leading and trailing whitespace. -/
def pyStrip (s : String) : String :=
  String.mk (((s.data.dropWhile isPySpace).reverse.dropWhile isPySpace).reverse)

/-- A `\b` boundary to the left of a match, given the preceding character. -/
def bdryBefore : Option Char → Bool
  | none => true
  | some p => !(isWordChar p)

/-- A `\b` boundary to the right of a match, given the following text. -/
def bdryAfter : List Char → Bool
  | [] => true
  | d :: _ => !(isWordChar d)

/-- One pass of `re.sub(r"\b" + abbrev + r"\b", full, text)` for a literal,
non-empty, all-word-character abbreviation: leftmost, non-overlapping
occurrences delimited by word boundaries are each replaced by `repl`.  The
fuel argument (initialised to the text length, strictly more than the number
of steps, each of which consumes at least one character) makes the recursion
structural, hence kernel-computable. -/
def subWordGo (p0 : Char) (ps : List Char) (repl : List Char) :
    Nat → Option Char → List Char → List Char
  | _, _, [] => []
  | 0, _, l => l
  | fuel + 1, prev, c :: cs =>
    if c = p0 ∧ ps.isPrefixOf cs ∧ bdryBefore prev = true ∧
        bdryAfter (cs.drop ps.length) = true then
      repl ++ subWordGo p0 ps repl fuel (some (ps.getLastD p0)) (cs.drop ps.length)
    else
      c :: subWordGo p0 ps repl fuel (some c) cs

def subWordB (pat repl text : List Char) : List Char :=
  match pat with
  | [] => text
  | p0 :: ps => subWordGo p0 ps repl text.length none text

/-- `re.sub(pattern, lambda m: m.group(0).replace(" ", "_"), text)` for a
pattern recognizer `m` returning the length (≥ 1) of a match anchored at the
head of its argument: scan left to right, protect each match by joining its
spaces with underscores.  Fuel as in `subWordGo`. -/
def scanSubGo (m : List Char → Option Nat) : Nat → List Char → List Char
  | _, [] => []
  | 0, l => l
  | fuel + 1, c :: cs =>
    match m (c :: cs) with
    | some k =>
      (((c :: cs).take (max k 1)).map (fun x => if x = ' ' then '_' else x)) ++
        scanSubGo m fuel ((c :: cs).drop (max k 1))
    | none => c :: scanSubGo m fuel cs

def scanSub (m : List Char → Option Nat) (l : List Char) : List Char :=
  scanSubGo m l.length l

/-- Case-insensitive literal prefix test (`re.IGNORECASE`). -/
def ciIsPrefix : List Char → List Char → Bool
  | [], _ => true
  | _ :: _, [] => false
  | p :: ps, c :: cs => (lowerChar c = p) && ciIsPrefix ps cs

def digitsLen (l : List Char) : Nat := (l.takeWhile Char.isDigit).length

def spacesLen (l : List Char) : Nat := (l.takeWhile isPySpace).length

/-- The optional `[23]` of `kg/m[23]?`, `m[23]?`, `l/m[23]?`. -/
def opt23 : List Char → Nat
  | [] => 0
  | c :: _ => if c = '2' || c = '3' then 1 else 0

/-- Unit alternation of `DOSAGE_PATTERN`, tried in the source order
`kg/m[23]?|kg|l/m[23]?`. -/
def matchUnitDosage (l : List Char) : Option Nat :=
  if ciIsPrefix ['k','g','/','m'] l then some (4 + opt23 (l.drop 4))
  else if ciIsPrefix ['k','g'] l then some 2
  else if ciIsPrefix ['l','/','m'] l then some (3 + opt23 (l.drop 3))
  else none

/-- `DOSAGE_PATTERN = (\d+)\s*(kg/m[23]?|kg|l/m[23]?)`, anchored at the head:
returns the length of the match if any. -/
def matchDosage (l : List Char) : Option Nat :=
  let d := digitsLen l
  if d = 0 then none
  else
    let s := spacesLen (l.drop d)
    match matchUnitDosage (l.drop (d + s)) with
    | some u => some (d + s + u)
    | none => none

/-- `DIMENSION_PATTERN = (\d+)\s*x\s*(\d+)(?:\s*x\s*(\d+))?`, anchored at the
head. -/
def matchDimension (l : List Char) : Option Nat :=
  let d1 := digitsLen l
  if d1 = 0 then none
  else
    let s1 := spacesLen (l.drop d1)
    if !(ciIsPrefix ['x'] (l.drop (d1 + s1))) then none
    else
      let s2 := spacesLen (l.drop (d1 + s1 + 1))
      let d2 := digitsLen (l.drop (d1 + s1 + 1 + s2))
      if d2 = 0 then none
      else
        let base := d1 + s1 + 1 + s2 + d2
        let s3 := spacesLen (l.drop base)
        if !(ciIsPrefix ['x'] (l.drop (base + s3))) then some base
        else
          let s4 := spacesLen (l.drop (base + s3 + 1))
          let d3 := digitsLen (l.drop (base + s3 + 1 + s4))
          if d3 = 0 then some base else some (base + s3 + 1 + s4 + d3)

/-- Unit alternation of `MEASUREMENT_PATTERN`, tried in the source order
`m[23]?|cm|mm|kg|l|ml|cl`. -/
def matchUnitMeasurement (l : List Char) : Option Nat :=
  if ciIsPrefix ['m'] l then some (1 + opt23 (l.drop 1))
  else if ciIsPrefix ['c','m'] l then some 2
  else if ciIsPrefix ['m','m'] l then some 2
  else if ciIsPrefix ['k','g'] l then some 2
  else if ciIsPrefix ['l'] l then some 1
  else if ciIsPrefix ['m','l'] l then some 2
  else if ciIsPrefix ['c','l'] l then some 2
  else none

/-- The optional fractional part `(?:[.,]\d+)?` of `MEASUREMENT_PATTERN`. -/
def fracLen (l : List Char) : Nat :=
  match l with
  | [] => 0
  | c :: cs =>
    if (c = '.' || c = ',') && digitsLen cs ≠ 0 then 1 + digitsLen cs else 0

/-- `MEASUREMENT_PATTERN = (\d+(?:[.,]\d+)?)\s*(m[23]?|cm|mm|kg|l|ml|cl)`,
anchored at the head. -/
def matchMeasurement (l : List Char) : Option Nat :=
  let d := digitsLen l
  if d = 0 then none
  else
    let f := fracLen (l.drop d)
    let s := spacesLen (l.drop (d + f))
    match matchUnitMeasurement (l.drop (d + f + s)) with
    | some u => some (d + f + s + u)
    | none => none

/-- The character class `[\w/_-]` of the token-splitting regex. -/
def tokClass (c : Char) : Bool := isWordChar c || c = '/' || c = '-'

theorem dropWhile_length_le {α : Type} (p : α → Bool) (l : List α) :
    (l.dropWhile p).length ≤ l.length := by
  induction l with
  | nil => simp
  | cons c cs ih =>
    rw [List.dropWhile_cons]
    by_cases h : p c = true
    · simp only [h, if_true]; simp only [List.length_cons]; omega
    · simp [h]

/-- Trim a maximal `[\w/_-]` run to the span between its first and last word
character (the effect of the surrounding `\b` anchors); `none` when the run
holds no word character. -/
def trimRun (run : List Char) : Option (List Char) :=
  let r := run.dropWhile (fun c => !(isWordChar c))
  let r2 := (r.reverse.dropWhile (fun c => !(isWordChar c))).reverse
  if r2 = [] then none else some r2

/-- `re.findall(r"\b[\w/_-]+\b", text)`: walk the text accumulating the
current maximal `[\w/_-]` run (in reverse), emitting its `\b`-trimmed form
when the run ends.  Each maximal run yields at most one token, spanning its
first to its last word character. -/
def findTokensGo : List Char → List Char → List (List Char)
  | acc, [] =>
    (match trimRun acc.reverse with
     | some t => [t]
     | none => [])
  | acc, c :: cs =>
    if tokClass c then findTokensGo (c :: acc) cs
    else
      match trimRun acc.reverse with
      | some t => t :: findTokensGo [] cs
      | none => findTokensGo [] cs

def findTokens (l : List Char) : List (List Char) := findTokensGo [] l

/-- `STOP_WORDS_BTP` of `text_processor.py`. -/
def STOP_WORDS_BTP : List String :=
  ["de", "la", "le", "et", "en", "un", "une", "avec", "du", "des", "les",
   "pour", "sur", "dans", "par", "au", "aux", "ce", "ces", "son", "sa",
   "y", "compris"]

/-- `ABBREVIATIONS_BTP` of `text_processor.py`, in dict insertion order. -/
def ABBREVIATIONS_BTP : List (String × String) :=
  [("allu", "aluminium"), ("alu", "aluminium"), ("galva", "galvanisé"),
   ("metal", "métallique"), ("m2", "mètre carré"), ("m3", "mètre cube"),
   ("cm", "centimètre"), ("mm", "millimètre"), ("kg", "kilogramme"),
   ("ep", "épaisseur"), ("dim", "dimension"), ("ht", "hauteur"),
   ("lg", "longueur"), ("larg", "largeur"), ("prof", "profondeur"),
   ("diam", "diamètre"), ("epaiss", "épaisseur"), ("bat", "bâtiment"),
   ("elec", "électricité"), ("plomb", "plomberie"), ("menuis", "menuiserie")]

/-- `TextProcessor.tokenize_btp`: lower-case, expand abbreviations, optionally
protect technical patterns (dosage, dimension, measurement, in that order),
split on `\b[\w/_-]+\b`, restore protected spaces, and filter stop words
(kept when holding a digit) and one-character tokens. -/
def tokenize_btp (text : String) (preserve_technical : Bool) : List String :=
  let t := text.data.map lowerChar
  let t := ABBREVIATIONS_BTP.foldl (fun acc p => subWordB p.1.data p.2.data acc) t
  let t :=
    if preserve_technical then
      scanSub matchMeasurement (scanSub matchDimension (scanSub matchDosage t))
    else t
  (findTokens t).filterMap (fun tk =>
    let r := tk.map (fun c => if c = '_' then ' ' else c)
    let rs := String.mk r
    if (rs ∉ STOP_WORDS_BTP ∨ r.any Char.isDigit) ∧ r.length > 1 then some rs
    else none)

-- ================================================================================
-- corrector.py
-- ================================================================================

/-- `str.split()` with no argument: split on whitespace runs, no empty parts. -/
def splitWsGo : List Char → List Char → List (List Char)
  | acc, [] => if acc = [] then [] else [acc.reverse]
  | acc, c :: cs =>
    if isPySpace c then
      if acc = [] then splitWsGo [] cs else acc.reverse :: splitWsGo [] cs
    else splitWsGo (c :: acc) cs

def pyWords (s : String) : List String := (splitWsGo [] s.data).map String.mk

/-- `Corrector._load_corrections`: invert the canonical-word → variants source
into normalized-variant → canonical-word; a missing or JSON-malformed file
(`FileNotFoundError` / `JSONDecodeError`, modelled as `none`) degrades to the
empty map.  Later bindings of the same normalized variant overwrite earlier
ones. -/
def _load_corrections (src : Option (List (String × List String))) :
    List (String × String) :=
  match src with
  | none => []
  | some data =>
    data.foldl
      (fun m p => p.2.foldl (fun m v => adictSet m (normalize_text v) p.1) m) []

/-- `Corrector.correct_query`: with an empty map the query passes through
unchanged; otherwise normalize, split on whitespace, substitute each token
independently through the map, and rejoin with single spaces. -/
def correct_query (correction_map : List (String × String)) (query : String) :
    String :=
  if correction_map = [] then query
  else
    let query_norm := normalize_text query
    let query_tokens := pyWords query_norm
    let corrected_tokens :=
      query_tokens.foldl (fun acc t => acc ++ [(alookup t correction_map).getD t]) []
    String.intercalate " " corrected_tokens

-- ================================================================================
-- dictionary_manager.py
-- ================================================================================

/-- `defaultdict(set)` insertion used by `_build_reverse_index`:
`reverse_index[k].add(v)`. -/
def riAdd (ri : List (String × List String)) (k v : String) :
    List (String × List String) :=
  match alookup k ri with
  | none => ri ++ [(k, [v])]
  | some _ =>
    ri.map (fun q => if q.1 = k then (q.1, if v ∈ q.2 then q.2 else q.2 ++ [v]) else q)

/-- `DictionaryManager._build_reverse_index`: normalized synonym → set of
normalized canonical terms. -/
def _build_reverse_index (dict : List (String × List String)) :
    List (String × List String) :=
  dict.foldl
    (fun ri p =>
      p.2.foldl (fun ri syn => riAdd ri (normalize_text syn) (normalize_text p.1)) ri)
    []

/-- The query tokens `expand_query` works from. -/
def dmQueryTokens (query : String) : List String :=
  pySet (tokenize_btp (normalize_text query) false)

/-- Body of the expansion loop of `expand_query`: for a query token found in
the reverse index, union in `dictionary.get(main_term, [])` for every
canonical term the token maps to (the lookup key being the *normalized*
canonical term stored by `_build_reverse_index`). -/
def expandStep (dict ri : List (String × List String)) (acc : List String)
    (tok : String) : List String :=
  match alookup tok ri with
  | some mains =>
    mains.foldl (fun acc m => pySetUnion acc ((alookup m dict).getD [])) acc
  | none => acc

/-- The `expanded_terms` set of `DictionaryManager.expand_query` before the
`[:max_expansions]` truncation. -/
def expanded_terms_set (dict : List (String × List String)) (query : String) :
    List String :=
  pySetUnion
    ((dmQueryTokens query).foldl (expandStep dict (_build_reverse_index dict)) [])
    (dmQueryTokens query)

/-- `DictionaryManager.expand_query` (the source defaults
`max_expansions = 10`; callers rely on the default). -/
def expand_query (dict : List (String × List String)) (query : String)
    (max_expansions : Nat) : List String :=
  (expanded_terms_set dict query).take max_expansions

-- ================================================================================
-- search_engine.py
-- ================================================================================

/-- `str.startswith`: `pyStartswith s pre` is `s.startswith(pre)`. -/
def pyStartswith (s pre : String) : Bool := pre.data.isPrefixOf s.data

/-- Python `needle in haystack` substring containment. -/
def strContains (needle : List Char) : List Char → Bool
  | [] => needle.isEmpty
  | c :: cs => needle.isPrefixOf (c :: cs) || strContains needle cs

/-- A data-frame row as consumed by `BTCSearchEngine.search`: columns
`Désignation`, `Prix`, `Unité`. -/
structure Row where
  designation : String
  prix : String
  unite : String
deriving DecidableEq, Repr

/-- A search result (the `SearchResult` dataclass; `score` is declared `float`
but every keyword score is a natural number). -/
structure SearchResult where
  designation : String
  prix : String
  unite : String
  score : Nat
  match_type : String
  matched_terms : List String
  num_matches : Nat
deriving DecidableEq, Repr

/-- `BTCSearchEngine._get_flexible_matches`: the query tokens having at least
one designation token such that one starts with the other. -/
def _get_flexible_matches (query_tokens designation_tokens : List String) :
    List String :=
  query_tokens.filter
    (fun q => designation_tokens.any (fun d => pyStartswith d q || pyStartswith q d))

/-- Designation token set (`set(tokenize_btp(normalize_text(d), True))`). -/
def desigTokens (d : String) : List String :=
  pySet (tokenize_btp (normalize_text d) true)

/-- Per-row designation token set. -/
def rowTokens (r : Row) : List String := desigTokens r.designation

/-- The tokenized corrected query of `BTCSearchEngine.search`. -/
def queryTokensSE (cmap : List (String × String)) (q : String) : List String :=
  pySet (tokenize_btp (normalize_text (correct_query cmap q)) false)

/-- One row's Tier-D1 candidate (source lines 78-89): kept when the flexible
match set is non-empty; score `10·|matches|`, `+5` when the query token set
meets the designation token set. -/
def mkD1Result (query_tokens : List String) (row : Row) : Option SearchResult :=
  let m := _get_flexible_matches query_tokens (rowTokens row)
  if m ≠ [] then
    some
      { designation := row.designation, prix := row.prix, unite := row.unite,
        score := m.length * 10 +
          (if (query_tokens.filter (fun t => t ∈ rowTokens row)) ≠ [] then 5 else 0),
        match_type := "Mots-clés partiels (D1)",
        matched_terms := m, num_matches := m.length }
  else none

/-- Tier D1 candidate list, in catalog scan order. -/
def results_d1 (cmap : List (String × String)) (df : List Row) (q : String) :
    List SearchResult :=
  df.filterMap (mkD1Result (queryTokensSE cmap q))

/-- Tier D2 filter of the D1 results (before the `+50` boost). -/
def results_d2 (cmap : List (String × String)) (df : List Row) (q : String) :
    List SearchResult :=
  (results_d1 cmap df q).filter
    (fun r => r.num_matches = (queryTokensSE cmap q).length)

/-- The in-place D2 mutation: `r.score += 50`, relabel. -/
def boostD2 (l : List SearchResult) : List SearchResult :=
  l.map (fun r => { r with score := r.score + 50, match_type := "Tous les mots-clés (D2)" })

/-- The pure-synonym term set of Tier D3:
`set(expand_query(corrected_query)) - query_tokens`. -/
def synonym_terms_of (cmap : List (String × String))
    (dict : List (String × List String)) (q : String) : List String :=
  (pySet (expand_query dict (correct_query cmap q) 10)).filter
    (fun t => t ∉ queryTokensSE cmap q)

/-- One row's Tier-D3 candidate: score `5·|matches|` against the synonym set. -/
def mkD3Result (synonym_terms : List String) (row : Row) : Option SearchResult :=
  let m := _get_flexible_matches synonym_terms (rowTokens row)
  if m ≠ [] then
    some
      { designation := row.designation, prix := row.prix, unite := row.unite,
        score := m.length * 5, match_type := "Synonymes (D3)",
        matched_terms := m, num_matches := m.length }
  else none

/-- Tier D3 candidate list, in catalog scan order. -/
def results_d3 (cmap : List (String × String))
    (dict : List (String × List String)) (df : List Row) (q : String) :
    List SearchResult :=
  df.filterMap (mkD3Result (synonym_terms_of cmap dict q))

/-- Stable insertion of `x` into a score-descending list: `x` goes before the
first element whose key is `≤` its own, so among equal keys earlier input
elements stay first — the tie behaviour of Python's stable `list.sort` with
`reverse=True`. -/
def insertDescBy {α β : Type} [LinearOrder β] (f : α → β) (x : α) :
    List α → List α
  | [] => [x]
  | y :: ys => if f y ≤ f x then x :: y :: ys else y :: insertDescBy f x ys

/-- Stable sort by key, descending (`list.sort(key=..., reverse=True)`). -/
def sortDescBy {α β : Type} [LinearOrder β] (f : α → β) : List α → List α
  | [] => []
  | x :: xs => insertDescBy f x (sortDescBy f xs)

/-- The D3 block of `BTCSearchEngine.search` (source lines 110-135): empty
synonym set or no D3 hits give the empty answer, else the sorted, truncated
D3 list. -/
def searchD3 (cmap : List (String × String)) (dict : List (String × List String))
    (df : List Row) (q : String) (limit : Nat) : List SearchResult :=
  if synonym_terms_of cmap dict q = [] then []
  else if results_d3 cmap dict df q = [] then []
  else (sortDescBy (fun r => r.score) (results_d3 cmap dict df q)).take limit

/-- `BTCSearchEngine.search`: guard, correction, tokenization, Tier D1,
Tier D2 (only for multi-token queries), else the sorted D1 list, and Tier D3
only when D1 is empty.  The named tier lists stand for the local variables
`results_d1` / `results_d2` of the source. -/
def search (cmap : List (String × String)) (dict : List (String × List String))
    (df : List Row) (q : String) (limit : Nat) : List SearchResult :=
  if (pyStrip q).length < 2 then []
  else if queryTokensSE cmap q = [] then []
  else if results_d1 cmap df q = [] then searchD3 cmap dict df q limit
  else if 1 < (queryTokensSE cmap q).length then
    if results_d2 cmap df q ≠ [] then
      (sortDescBy (fun r => r.score) (boostD2 (results_d2 cmap df q))).take limit
    else (sortDescBy (fun r => r.score) (results_d1 cmap df q)).take limit
  else (sortDescBy (fun r => r.score) (results_d1 cmap df q)).take limit

-- --------------------------------------------------------------------------------
-- Generic lemmas about the sort and the set/fold models
-- --------------------------------------------------------------------------------

theorem insertDescBy_perm {α β : Type} [LinearOrder β] (f : α → β) (x : α)
    (l : List α) : List.Perm (insertDescBy f x l) (x :: l) := by
  induction l with
  | nil => rfl
  | cons y ys ih =>
    rw [insertDescBy]
    by_cases h : f y ≤ f x
    · rw [if_pos h]
    · rw [if_neg h]
      exact (ih.cons y).trans (List.Perm.swap x y ys)

theorem sortDescBy_perm {α β : Type} [LinearOrder β] (f : α → β) (l : List α) :
    List.Perm (sortDescBy f l) l := by
  induction l with
  | nil => rfl
  | cons x xs ih =>
    rw [sortDescBy]
    exact (insertDescBy_perm f x (sortDescBy f xs)).trans (ih.cons x)

theorem insertDescBy_pairwise {α β : Type} [LinearOrder β] (f : α → β) (x : α)
    (l : List α) (h : l.Pairwise (fun a b => f b ≤ f a)) :
    (insertDescBy f x l).Pairwise (fun a b => f b ≤ f a) := by
  induction l with
  | nil => simp [insertDescBy]
  | cons y ys ih =>
    rw [insertDescBy]
    rcases List.pairwise_cons.1 h with ⟨hy, hys⟩
    by_cases hle : f y ≤ f x
    · rw [if_pos hle]
      refine List.pairwise_cons.2 ⟨?_, h⟩
      intro z hz
      rcases List.mem_cons.1 hz with hz | hz
      · exact hz ▸ hle
      · exact (hy z hz).trans hle
    · rw [if_neg hle]
      refine List.pairwise_cons.2 ⟨?_, ih hys⟩
      intro z hz
      have hz2 : z ∈ x :: ys := (insertDescBy_perm f x ys).mem_iff.1 hz
      rcases List.mem_cons.1 hz2 with rfl | hz3
      · exact le_of_not_le hle
      · exact hy z hz3

theorem sortDescBy_pairwise {α β : Type} [LinearOrder β] (f : α → β)
    (l : List α) : (sortDescBy f l).Pairwise (fun a b => f b ≤ f a) := by
  induction l with
  | nil => simp [sortDescBy]
  | cons x xs ih => exact insertDescBy_pairwise f x _ ih

theorem insertDescBy_filter_key {α β : Type} [LinearOrder β] (f : α → β)
    (x : α) (c : β) (l : List α) :
    (insertDescBy f x l).filter (fun a => decide (f a = c)) =
      if f x = c then x :: l.filter (fun a => decide (f a = c))
      else l.filter (fun a => decide (f a = c)) := by
  induction l with
  | nil => by_cases h : f x = c <;> simp [insertDescBy, h]
  | cons y ys ih =>
    rw [insertDescBy]
    by_cases hle : f y ≤ f x
    · rw [if_pos hle]
      by_cases hx : f x = c <;> simp [hx, List.filter_cons]
    · rw [if_neg hle]
      by_cases hx : f x = c
      · have hy : ¬ (f y = c) := by
          intro hyc
          have hfix : f y = f x := by rw [hyc, hx]
          exact hle (le_of_eq hfix)
        simp [List.filter_cons, hy, ih, hx]
      · simp [List.filter_cons, ih, hx]

/-- Stability of the model of Python's stable sort: the elements at any fixed
key keep their relative input order. -/
theorem sortDescBy_filter_stable {α β : Type} [LinearOrder β] (f : α → β)
    (c : β) (l : List α) :
    (sortDescBy f l).filter (fun a => decide (f a = c)) =
      l.filter (fun a => decide (f a = c)) := by
  induction l with
  | nil => rfl
  | cons x xs ih =>
    rw [sortDescBy, insertDescBy_filter_key]
    by_cases hx : f x = c <;> simp [hx, ih]

theorem take_filter_isPrefix {α : Type} (p : α → Bool) (n : Nat) (l : List α) :
    (l.take n).filter p <+: l.filter p := by
  refine ⟨(l.drop n).filter p, ?_⟩
  rw [← List.filter_append, List.take_append_drop]

theorem mem_pySetUnion {α : Type} [DecidableEq α] (x : α) (xs : List α) :
    ∀ a : List α, x ∈ pySetUnion a xs ↔ x ∈ a ∨ x ∈ xs := by
  induction xs with
  | nil => intro a; simp [pySetUnion]
  | cons y ys ih =>
    intro a
    show x ∈ pySetUnion (if y ∈ a then a else a ++ [y]) ys ↔ _
    rw [ih]
    by_cases hy : y ∈ a
    · simp only [if_pos hy]
      constructor
      · rintro (h | h)
        · exact Or.inl h
        · exact Or.inr (List.mem_cons_of_mem y h)
      · rintro (h | h)
        · exact Or.inl h
        · rcases List.mem_cons.1 h with rfl | h
          · exact Or.inl hy
          · exact Or.inr h
    · simp only [if_neg hy, List.mem_append, List.mem_singleton, List.mem_cons]
      tauto

theorem mem_pySet {α : Type} [DecidableEq α] (x : α) (l : List α) :
    x ∈ pySet l ↔ x ∈ l := by
  have : pySet l = pySetUnion [] l := rfl
  rw [this, mem_pySetUnion]
  simp

-- --------------------------------------------------------------------------------
-- Structural facts about the tier candidate lists
-- --------------------------------------------------------------------------------

theorem mkD1Result_some (qt : List String) (row : Row) (r : SearchResult)
    (h : mkD1Result qt row = some r) :
    _get_flexible_matches qt (rowTokens row) ≠ [] ∧
    r.designation = row.designation ∧
    r.num_matches = (_get_flexible_matches qt (rowTokens row)).length ∧
    r.score = (_get_flexible_matches qt (rowTokens row)).length * 10 +
      (if (qt.filter (fun t => t ∈ rowTokens row)) ≠ [] then 5 else 0) := by
  simp only [mkD1Result] at h
  split at h
  · rename_i hm
    rcases Option.some.injEq _ _ ▸ h with rfl
    exact ⟨hm, rfl, rfl, rfl⟩
  · exact absurd h (by simp)

theorem mkD3Result_some (st : List String) (row : Row) (r : SearchResult)
    (h : mkD3Result st row = some r) :
    _get_flexible_matches st (rowTokens row) ≠ [] ∧
    r.designation = row.designation ∧
    r.num_matches = (_get_flexible_matches st (rowTokens row)).length ∧
    r.score = (_get_flexible_matches st (rowTokens row)).length * 5 := by
  simp only [mkD3Result] at h
  split at h
  · rename_i hm
    rcases Option.some.injEq _ _ ▸ h with rfl
    exact ⟨hm, rfl, rfl, rfl⟩
  · exact absurd h (by simp)

theorem results_d1_pos (cmap : List (String × String)) (df : List Row)
    (q : String) : ∀ r ∈ results_d1 cmap df q, 0 < r.score := by
  intro r hr
  rcases List.mem_filterMap.1 hr with ⟨row, _, hrow⟩
  rcases mkD1Result_some _ row r hrow with ⟨hm, _, _, hs⟩
  have hlen : 0 < (_get_flexible_matches (queryTokensSE cmap q) (rowTokens row)).length :=
    List.length_pos.2 hm
  rw [hs]
  omega

theorem results_d2_pos (cmap : List (String × String)) (df : List Row)
    (q : String) : ∀ r ∈ results_d2 cmap df q, 0 < r.score := by
  intro r hr
  exact results_d1_pos cmap df q r (List.mem_of_mem_filter hr)

theorem boostD2_pos (l : List SearchResult) : ∀ r ∈ boostD2 l, 0 < r.score := by
  intro r hr
  rcases List.mem_map.1 hr with ⟨r0, _, rfl⟩
  simp

theorem results_d3_pos (cmap : List (String × String))
    (dict : List (String × List String)) (df : List Row) (q : String) :
    ∀ r ∈ results_d3 cmap dict df q, 0 < r.score := by
  intro r hr
  rcases List.mem_filterMap.1 hr with ⟨row, _, hrow⟩
  rcases mkD3Result_some _ row r hrow with ⟨hm, _, _, hs⟩
  have hlen : 0 < (_get_flexible_matches (synonym_terms_of cmap dict q) (rowTokens row)).length :=
    List.length_pos.2 hm
  rw [hs]
  omega

/-- The shared shape of every non-empty return of `search`: a stable
score-descending sort of a tier list, truncated to `limit`. -/
theorem sorted_take_props (t : List SearchResult) (limit : Nat)
    (hpos : ∀ r ∈ t, 0 < r.score) :
    (∀ r ∈ (sortDescBy (fun r => r.score) t).take limit, 0 < r.score) ∧
    ((sortDescBy (fun r => r.score) t).take limit).length ≤ limit ∧
    ((sortDescBy (fun r => r.score) t).take limit).Pairwise
      (fun a b => b.score ≤ a.score) ∧
    ∀ c : Nat,
      (((sortDescBy (fun r => r.score) t).take limit).filter
          (fun r => decide (r.score = c))) <+:
        (t.filter (fun r => decide (r.score = c))) := by
  refine ⟨?_, ?_, ?_, ?_⟩
  · intro r hr
    have h1 : r ∈ sortDescBy (fun r => r.score) t := List.take_subset _ _ hr
    exact hpos r ((sortDescBy_perm (fun r => r.score) t).mem_iff.1 h1)
  · exact List.length_take_le _ _
  · exact (sortDescBy_pairwise (fun r => r.score) t).sublist (List.take_sublist _ _)
  · intro c
    have h1 := take_filter_isPrefix (fun r => decide (r.score = c)) limit
      (sortDescBy (fun r => r.score) t)
    rwa [sortDescBy_filter_stable] at h1

-- ================================================================================
-- Claims C1-C4: the tiered search pipeline of search_engine.py
-- ================================================================================

/-- Sample catalog of the specification's tier-ordering scenario (§8). -/
def dfSpec : List Row :=
  [{ designation := "semelle beton arme", prix := "1000", unite := "m3" },
   { designation := "semelle beton", prix := "800", unite := "m3" }]

/-- C1: tier control flow of `BTCSearchEngine.search`.  When the query passes
the guards: (i) with more than one query token and a non-empty D2 filter
(match count = token count), the answer is the boosted D2 list sorted and
truncated, never D3; (ii) with non-empty D1 and either a single token or an
empty D2 filter, the answer is the sorted, truncated D1 list, never D3;
(iii) with non-empty D1 the result does not depend on the synonym dictionary
at all (D3 is not consulted); (iv) D3 is reached exactly when D1 is empty. -/
theorem C1_tier_control_flow (cmap : List (String × String))
    (dict : List (String × List String)) (df : List Row) (q : String)
    (limit : Nat) (hlen : ¬ (pyStrip q).length < 2)
    (htok : queryTokensSE cmap q ≠ []) :
    (1 < (queryTokensSE cmap q).length → results_d2 cmap df q ≠ [] →
      search cmap dict df q limit =
        (sortDescBy (fun r => r.score) (boostD2 (results_d2 cmap df q))).take limit) ∧
    (results_d1 cmap df q ≠ [] →
      ((queryTokensSE cmap q).length ≤ 1 ∨ results_d2 cmap df q = []) →
      search cmap dict df q limit =
        (sortDescBy (fun r => r.score) (results_d1 cmap df q)).take limit) ∧
    (results_d1 cmap df q ≠ [] → ∀ dict2 : List (String × List String),
      search cmap dict df q limit = search cmap dict2 df q limit) ∧
    (results_d1 cmap df q = [] →
      search cmap dict df q limit = searchD3 cmap dict df q limit) := by
  refine ⟨?_, ?_, ?_, ?_⟩
  · intro hn hd2
    have hd1 : results_d1 cmap df q ≠ [] := by
      intro h0
      apply hd2
      unfold results_d2
      rw [h0]
      rfl
    unfold search
    rw [if_neg hlen, if_neg htok, if_neg hd1, if_pos hn, if_pos hd2]
  · intro hd1 hcase
    unfold search
    rw [if_neg hlen, if_neg htok, if_neg hd1]
    rcases hcase with hone | hd2
    · rw [if_neg (by omega : ¬ 1 < (queryTokensSE cmap q).length)]
    · by_cases hn : 1 < (queryTokensSE cmap q).length
      · rw [if_pos hn, if_neg (by simp [hd2])]
      · rw [if_neg hn]
  · intro hd1 dict2
    unfold search
    rw [if_neg hlen, if_neg htok, if_neg hd1, if_neg hlen, if_neg htok, if_neg hd1]
  · intro hd1
    unfold search
    rw [if_neg hlen, if_neg htok, if_pos hd1]

/-- Witness for C1 at the specification's §8 scenario: the query
`"semelle beton"` over the two-row sample catalog has two tokens and a
non-empty D2 filter, so the D2 branch is the answer. -/
theorem C1_witness :
    search [] [] dfSpec "semelle beton" 20 =
      (sortDescBy (fun r => r.score) (boostD2 (results_d2 [] dfSpec "semelle beton"))).take 20 :=
  (C1_tier_control_flow [] [] dfSpec "semelle beton" 20 (by decide)
    (by decide)).1 (by decide) (by decide)

/-- C4: invariants of every returned list, whatever tier produced it: every
result scores strictly above 0, at most `limit` results, scores descending,
and for every fixed score the returned results are an initial segment of one
tier candidate list (all tier lists are built in catalog scan order), i.e.
the sort is stable. -/
theorem C4_returned_list_invariants (cmap : List (String × String))
    (dict : List (String × List String)) (df : List Row) (q : String)
    (limit : Nat) :
    (∀ r ∈ search cmap dict df q limit, 0 < r.score) ∧
    (search cmap dict df q limit).length ≤ limit ∧
    (search cmap dict df q limit).Pairwise (fun a b => b.score ≤ a.score) ∧
    ∃ tier : List SearchResult,
      (tier = boostD2 (results_d2 cmap df q) ∨ tier = results_d1 cmap df q ∨
        tier = results_d3 cmap dict df q) ∧
      ∀ c : Nat,
        ((search cmap dict df q limit).filter (fun r => decide (r.score = c))) <+:
          (tier.filter (fun r => decide (r.score = c))) := by
  have hempty : ∀ res : List SearchResult, res = [] →
      (∀ r ∈ res, 0 < r.score) ∧ res.length ≤ limit ∧
      res.Pairwise (fun a b => b.score ≤ a.score) ∧
      ∃ tier : List SearchResult,
        (tier = boostD2 (results_d2 cmap df q) ∨ tier = results_d1 cmap df q ∨
          tier = results_d3 cmap dict df q) ∧
        ∀ c : Nat, (res.filter (fun r => decide (r.score = c))) <+:
          (tier.filter (fun r => decide (r.score = c))) := by
    rintro res rfl
    refine ⟨by simp, by simp, by simp, results_d1 cmap df q, Or.inr (Or.inl rfl), ?_⟩
    intro c
    exact ⟨_, rfl⟩
  unfold search
  by_cases h1 : (pyStrip q).length < 2
  · rw [if_pos h1]; exact hempty [] rfl
  rw [if_neg h1]
  by_cases h2 : queryTokensSE cmap q = []
  · rw [if_pos h2]; exact hempty [] rfl
  rw [if_neg h2]
  by_cases h3 : results_d1 cmap df q = []
  · rw [if_pos h3]
    unfold searchD3
    by_cases h4 : synonym_terms_of cmap dict q = []
    · rw [if_pos h4]; exact hempty [] rfl
    rw [if_neg h4]
    by_cases h5 : results_d3 cmap dict df q = []
    · rw [if_pos h5]; exact hempty [] rfl
    rw [if_neg h5]
    rcases sorted_take_props (results_d3 cmap dict df q) limit
      (results_d3_pos cmap dict df q) with ⟨p1, p2, p3, p4⟩
    exact ⟨p1, p2, p3, results_d3 cmap dict df q, Or.inr (Or.inr rfl), p4⟩
  rw [if_neg h3]
  by_cases h6 : 1 < (queryTokensSE cmap q).length
  · rw [if_pos h6]
    by_cases h7 : results_d2 cmap df q ≠ []
    · rw [if_pos h7]
      rcases sorted_take_props (boostD2 (results_d2 cmap df q)) limit
        (boostD2_pos _) with ⟨p1, p2, p3, p4⟩
      exact ⟨p1, p2, p3, boostD2 (results_d2 cmap df q), Or.inl rfl, p4⟩
    · rw [if_neg h7]
      rcases sorted_take_props (results_d1 cmap df q) limit
        (results_d1_pos cmap df q) with ⟨p1, p2, p3, p4⟩
      exact ⟨p1, p2, p3, results_d1 cmap df q, Or.inr (Or.inl rfl), p4⟩
  · rw [if_neg h6]
    rcases sorted_take_props (results_d1 cmap df q) limit
      (results_d1_pos cmap df q) with ⟨p1, p2, p3, p4⟩
    exact ⟨p1, p2, p3, results_d1 cmap df q, Or.inr (Or.inl rfl), p4⟩

/-- Single-row catalog on which the D1 +5 bonus fires with no full-query
substring: query `"beton mur"`, designation `"mur beton"`. -/
def dfC2 : List Row := [{ designation := "mur beton", prix := "10", unite := "m2" }]

/-- The D1 result `search` computes on `dfC2` for `"beton mur"`: both tokens
match exactly (`+5`), score `2·10 + 5 = 25`. -/
def rC2 : SearchResult :=
  { designation := "mur beton", prix := "10", unite := "m2", score := 25,
    match_type := "Mots-clés partiels (D1)", matched_terms := ["beton", "mur"],
    num_matches := 2 }

/-- C2, counterexample: the claim's scoring formula
`score = 10·|matches| + (5 iff the full normalized query is a substring of
the normalized designation)` fails on `dfC2` with query `"beton mur"`: the
code scores 25 although `"beton mur"` is not a substring of `"mur beton"`
(the `+5` actually tests token-set intersection, source line 82). -/
theorem C2_counterexample :
    ¬ (∀ r ∈ results_d1 [] dfC2 "beton mur",
        r.score = 10 * r.num_matches +
          (if strContains (normalize_text "beton mur").data
              (normalize_text r.designation).data = true then 5 else 0)) := by
  decide

/-- C2 amended: in Tier D1 every kept entry scores
`10·|flexible matches| + 5`, the `+5` granted exactly when the query token
set intersects the designation token set (not when the full query is a
substring); entries are kept exactly when the flexible match set is
non-empty, hence every kept score is positive. -/
theorem C2_amended_d1_scoring (cmap : List (String × String)) (df : List Row)
    (q : String) :
    (∀ r ∈ results_d1 cmap df q,
      0 < r.score ∧
      r.num_matches =
        (_get_flexible_matches (queryTokensSE cmap q) (desigTokens r.designation)).length ∧
      r.score = 10 * r.num_matches +
        (if ((queryTokensSE cmap q).filter
            (fun t => t ∈ desigTokens r.designation)) ≠ [] then 5 else 0)) ∧
    (∀ row ∈ df,
      _get_flexible_matches (queryTokensSE cmap q) (rowTokens row) ≠ [] →
      ∃ r, r ∈ results_d1 cmap df q ∧ r.designation = row.designation ∧
        0 < r.score) := by
  constructor
  · intro r hr
    rcases List.mem_filterMap.1 hr with ⟨row, _, hrow⟩
    rcases mkD1Result_some _ row r hrow with ⟨hm, hd, hn, hs⟩
    have hlen : 0 < (_get_flexible_matches (queryTokensSE cmap q) (rowTokens row)).length :=
      List.length_pos.2 hm
    have hdt : desigTokens r.designation = rowTokens row := by rw [hd]; rfl
    refine ⟨by rw [hs]; omega, by rw [hn, hdt], ?_⟩
    rw [hs, hn, hdt]
    ring_nf
  · intro row hrow hm
    rcases hmk : mkD1Result (queryTokensSE cmap q) row with _ | r
    · exfalso
      simp only [mkD1Result, if_pos hm] at hmk
      exact Option.noConfusion hmk
    · rcases mkD1Result_some _ row r hmk with ⟨_, hd, _, hs⟩
      refine ⟨r, List.mem_filterMap.2 ⟨row, hrow, hmk⟩, hd, ?_⟩
      have hlen : 0 < (_get_flexible_matches (queryTokensSE cmap q) (rowTokens row)).length :=
        List.length_pos.2 hm
      rw [hs]
      omega

/-- Witness for the amended C2 at the concrete counterexample row: the kept
result scores `25 = 10·2 + 5` by token intersection. -/
theorem C2_witness : 0 < rC2.score ∧ rC2.score = 25 :=
  ⟨((C2_amended_d1_scoring [] dfC2 "beton mur").1 rC2 (by decide)).1, by decide⟩

/-- C3, counterexample: `"eto"` is a substring of `"beton"`, yet
`_get_flexible_matches` does not match it — the primitive only tests
`startswith` in both directions (source line 48), not substring containment. -/
theorem C3_counterexample :
    ¬ (∀ s ∈ ["eto"], ∀ d ∈ ["beton"],
        (strContains s.data d.data = true ∨ strContains d.data s.data = true) →
        s ∈ _get_flexible_matches ["eto"] ["beton"]) := by
  decide

/-- C3 amended: the flexible token-match primitive (used by every tier,
including D3) matches a token exactly when it belongs to the query set and
some designation token is a prefix of it or extends it as a prefix — prefix,
not general substring. -/
theorem C3_amended_flexible_prefix (Q D : List String) (s : String) :
    s ∈ _get_flexible_matches Q D ↔
      s ∈ Q ∧ ∃ d ∈ D, pyStartswith d s = true ∨ pyStartswith s d = true := by
  unfold _get_flexible_matches
  rw [List.mem_filter]
  simp [List.any_eq_true]

-- ================================================================================
-- Claim C9: the normalizer
-- ================================================================================

/-- C9: `normalize_text` is idempotent, lower-cases and strips diacritics
(`normalize("Étanchéité") = "etancheite"`), and yields `""` on every
non-string input (the `isinstance` guard) without raising. -/
theorem C9_normalize_idempotent (s : String) (v : PyVal)
    (hv : v.isStr = false) :
    normalize_text (normalize_text s) = normalize_text s ∧
    normalize_text "Étanchéité" = "etancheite" ∧
    normalize_text_py v = "" := by
  refine ⟨normalize_text_idem s, by decide, ?_⟩
  cases v with
  | pyStr s => simp [PyVal.isStr] at hv
  | pyInt n => rfl
  | pyNone => rfl

/-- Witness for C9 at `s = "Étanchéité"`, `v = 3` (an `int`, not a string). -/
theorem C9_witness :
    normalize_text (normalize_text "Étanchéité") = normalize_text "Étanchéité" ∧
    normalize_text_py (PyVal.pyInt 3) = "" :=
  ⟨(C9_normalize_idempotent "Étanchéité" (PyVal.pyInt 3) (by decide)).1,
   (C9_normalize_idempotent "Étanchéité" (PyVal.pyInt 3) (by decide)).2.2⟩

-- ================================================================================
-- Claim C7: the corrector
-- ================================================================================

theorem foldl_append_singleton {α β : Type} (f : α → β) (l : List α) :
    ∀ acc : List β, l.foldl (fun acc t => acc ++ [f t]) acc = acc ++ l.map f := by
  induction l with
  | nil => intro acc; simp
  | cons x xs ih => intro acc; rw [List.foldl_cons, ih, List.map_cons]; simp

/-- C7: the corrector is strictly per-token — `correct_query` normalizes,
splits on whitespace, substitutes each token independently through the
variant index (absent tokens pass through), and rejoins with single spaces;
a missing or malformed source file yields the empty map and every query then
passes through completely unchanged; the concrete example of the
specification holds. -/
theorem C7_corrector_per_token (cmap : List (String × String)) (q : String)
    (hm : cmap ≠ []) :
    (∀ q2 : String, correct_query (_load_corrections none) q2 = q2) ∧
    correct_query cmap q =
      String.intercalate " "
        ((pyWords (normalize_text q)).map (fun t => (alookup t cmap).getD t)) ∧
    correct_query
        (_load_corrections (some [("semelle", ["semell", "semelles"])]))
        "semell beton" = "semelle beton" := by
  refine ⟨fun q2 => rfl, ?_, by decide⟩
  unfold correct_query
  rw [if_neg hm]
  show " ".intercalate
      ((pyWords (normalize_text q)).foldl (fun acc t => acc ++ [(alookup t cmap).getD t]) []) = _
  rw [foldl_append_singleton (fun t => (alookup t cmap).getD t) (pyWords (normalize_text q)) []]
  rfl

/-- Witness for C7 with the specification's variant table
`{"semelle": ["semell", "semelles"]}` (a non-empty map). -/
theorem C7_witness :
    correct_query
        (_load_corrections (some [("semelle", ["semell", "semelles"])]))
        "semell beton" = "semelle beton" :=
  (C7_corrector_per_token
    (_load_corrections (some [("semelle", ["semell", "semelles"])]))
    "semell beton" (by decide)).2.2

-- ================================================================================
-- Claims C6 and C10: synonym expansion
-- ================================================================================

theorem foldl_mem_mono {α ι : Type} (g : List α → ι → List α)
    (hg : ∀ acc i, ∀ x ∈ acc, x ∈ g acc i) (l : List ι) :
    ∀ (acc : List α) (x : α), x ∈ acc → x ∈ l.foldl g acc := by
  induction l with
  | nil => intro acc x hx; simpa
  | cons i is ih =>
    intro acc x hx
    rw [List.foldl_cons]
    exact ih _ x (hg acc i x hx)

theorem foldl_mem_of_step {α ι : Type} (g : List α → ι → List α)
    (hg : ∀ acc i, ∀ x ∈ acc, x ∈ g acc i) (l : List ι) (i : ι) (hi : i ∈ l)
    (x : α) (hx : ∀ acc, x ∈ g acc i) : ∀ acc, x ∈ l.foldl g acc := by
  induction l with
  | nil => cases hi
  | cons j js ih =>
    intro acc
    rw [List.foldl_cons]
    rcases List.mem_cons.1 hi with rfl | hi2
    · exact foldl_mem_mono g hg js _ x (hx acc)
    · exact ih hi2 _

theorem foldl_id_of_step_id {α ι : Type} (g : List α → ι → List α) (l : List ι)
    (hg : ∀ acc i, g acc i = acc) : ∀ acc, l.foldl g acc = acc := by
  induction l with
  | nil => intro acc; rfl
  | cons i is ih => intro acc; rw [List.foldl_cons, hg, ih]

theorem expandStep_mono (dict ri : List (String × List String)) :
    ∀ acc tok, ∀ x ∈ acc, x ∈ expandStep dict ri acc tok := by
  intro acc tok x hx
  unfold expandStep
  cases alookup tok ri with
  | none => exact hx
  | some mains =>
    exact foldl_mem_mono _
      (fun acc m x hx => (mem_pySetUnion x _ acc).2 (Or.inl hx)) mains acc x hx

/-- Twelve synonyms under one canonical term: more than `max_expansions`. -/
def dictC6 : List (String × List String) :=
  [("beton", ["beton", "s01", "s02", "s03", "s04", "s05", "s06", "s07",
              "s08", "s09", "s10", "s11"])]

/-- C6, counterexample: with 12 synonyms grouped under `"beton"`, the query
`"beton"` maps to that canonical term, yet `expand_query` (whose result is
truncated to `max_expansions = 10`) does not return all of its synonyms. -/
theorem C6_counterexample :
    ¬ (∀ s ∈ (alookup "beton" dictC6).getD [], s ∈ expand_query dictC6 "beton" 10) := by
  decide

/-- C6 amended: provided the expanded term set fits under the
`max_expansions` cap, expansion fans out through canonical terms — for every
query token present in the reverse index, all synonyms of every (normalized)
canonical term the token maps to are returned, and the original query tokens
are always included. -/
theorem C6_amended_synonym_fanout (dict : List (String × List String))
    (q : String) (max : Nat)
    (h : (expanded_terms_set dict q).length ≤ max) :
    (∀ tok ∈ dmQueryTokens q, ∀ mains : List String,
      alookup tok (_build_reverse_index dict) = some mains →
      ∀ m ∈ mains, ∀ s ∈ (alookup m dict).getD [],
        s ∈ expand_query dict q max) ∧
    (∀ t ∈ dmQueryTokens q, t ∈ expand_query dict q max) := by
  have hq : expand_query dict q max = expanded_terms_set dict q := by
    unfold expand_query
    exact List.take_of_length_le h
  constructor
  · intro tok htok mains hmains m hm s hs
    rw [hq]
    unfold expanded_terms_set
    refine (mem_pySetUnion s _ _).2 (Or.inl ?_)
    refine foldl_mem_of_step _ (expandStep_mono dict _) _ tok htok s ?_ []
    intro acc
    unfold expandStep
    rw [hmains]
    refine foldl_mem_of_step _
      (fun acc m2 x hx => (mem_pySetUnion x _ acc).2 (Or.inl hx)) mains m hm s ?_ acc
    intro acc2
    exact (mem_pySetUnion s _ acc2).2 (Or.inr hs)
  · intro t ht
    rw [hq]
    exact (mem_pySetUnion t _ _).2 (Or.inr ht)

/-- The specification's fan-out dictionary. -/
def dictBeton : List (String × List String) :=
  [("beton", ["beton", "ciment", "mortier"])]

/-- Witness for the amended C6: expanding `"ciment"` over
`{"beton": ["beton","ciment","mortier"]}` yields `"mortier"`. -/
theorem C6_witness : "mortier" ∈ expand_query dictBeton "ciment" 10 :=
  (C6_amended_synonym_fanout dictBeton "ciment" 10 (by decide)).1
    "ciment" (by decide) ["beton"] (by decide) "beton" (by decide)
    "mortier" (by decide)

theorem alookup_mem_pair {κ α : Type} [DecidableEq κ] (k : κ) (v : α) :
    ∀ t : List (κ × α), alookup k t = some v → (k, v) ∈ t := by
  intro t
  induction t with
  | nil => intro h; simp [alookup] at h
  | cons p rest ih =>
    intro h
    by_cases hk : k = p.1
    · simp only [alookup] at h
      rw [if_pos hk] at h
      rcases Option.some.injEq _ _ ▸ h with rfl
      rw [hk]
      simp
    · simp only [alookup] at h
      rw [if_neg hk] at h
      exact List.mem_cons_of_mem p (ih h)

theorem riAdd_vals (ri : List (String × List String)) (k v : String)
    (S : List String) (hri : ∀ p ∈ ri, ∀ m ∈ p.2, m ∈ S) (hv : v ∈ S) :
    ∀ p ∈ riAdd ri k v, ∀ m ∈ p.2, m ∈ S := by
  intro p hp m hm
  unfold riAdd at hp
  cases halo : alookup k ri with
  | none =>
    rw [halo] at hp
    rcases List.mem_append.1 hp with hp2 | hp2
    · exact hri p hp2 m hm
    · rcases List.mem_singleton.1 hp2 with rfl
      rcases List.mem_singleton.1 hm with rfl
      exact hv
  | some old =>
    rw [halo] at hp
    rcases List.mem_map.1 hp with ⟨p0, hp0, rfl⟩
    by_cases hk : p0.1 = k
    · rw [if_pos hk] at hm
      simp only [] at hm
      by_cases hvin : v ∈ p0.2
      · rw [if_pos hvin] at hm
        exact hri p0 hp0 m hm
      · rw [if_neg hvin] at hm
        rcases List.mem_append.1 hm with hm2 | hm2
        · exact hri p0 hp0 m hm2
        · rcases List.mem_singleton.1 hm2 with rfl
          exact hv
    · rw [if_neg hk] at hm
      exact hri p0 hp0 m hm

theorem build_reverse_index_vals (dict : List (String × List String)) :
    ∀ p ∈ _build_reverse_index dict, ∀ m ∈ p.2,
      m ∈ dict.map (fun q => normalize_text q.1) := by
  have inner : ∀ (main : String) (syns : List String)
      (ri : List (String × List String)),
      normalize_text main ∈ dict.map (fun q => normalize_text q.1) →
      (∀ p ∈ ri, ∀ m ∈ p.2, m ∈ dict.map (fun q => normalize_text q.1)) →
      ∀ p ∈ syns.foldl
          (fun ri syn => riAdd ri (normalize_text syn) (normalize_text main)) ri,
        ∀ m ∈ p.2, m ∈ dict.map (fun q => normalize_text q.1) := by
    intro main syns
    induction syns with
    | nil => intro ri _ hri; exact hri
    | cons syn rest ih =>
      intro ri hmain hri
      rw [List.foldl_cons]
      exact ih _ hmain (riAdd_vals ri _ _ _ hri hmain)
  have outer : ∀ (l : List (String × List String))
      (ri : List (String × List String)),
      (∀ q2 ∈ l, normalize_text q2.1 ∈ dict.map (fun q => normalize_text q.1)) →
      (∀ p ∈ ri, ∀ m ∈ p.2, m ∈ dict.map (fun q => normalize_text q.1)) →
      ∀ p ∈ l.foldl
          (fun ri p2 =>
            p2.2.foldl
              (fun ri syn => riAdd ri (normalize_text syn) (normalize_text p2.1)) ri)
          ri,
        ∀ m ∈ p.2, m ∈ dict.map (fun q => normalize_text q.1) := by
    intro l
    induction l with
    | nil => intro ri _ hri; exact hri
    | cons p2 rest ih =>
      intro ri hl hri
      rw [List.foldl_cons]
      refine ih _ (fun q2 hq2 => hl q2 (List.mem_cons_of_mem p2 hq2)) ?_
      exact inner p2.1 p2.2 ri (hl p2 (List.mem_cons_self p2 rest)) hri
  intro p hp
  refine outer dict [] ?_ (by simp) p hp
  intro q2 hq2
  exact List.mem_map.2 ⟨q2, hq2, rfl⟩

/-- C10: `expand_query` looks up a canonical term's synonym list with the
*normalized* canonical term as the dictionary key, so if no dictionary key
equals the normalization of any key (e.g. keys with capitals or accents),
the expansion contributes nothing and every returned term is an original
query token. -/
theorem C10_expand_normalized_key_lookup (dict : List (String × List String))
    (q : String) (max : Nat)
    (h : ∀ p ∈ dict, alookup (normalize_text p.1) dict = none) :
    ∀ s ∈ expand_query dict q max, s ∈ dmQueryTokens q := by
  intro s hs
  unfold expand_query at hs
  have hs2 : s ∈ expanded_terms_set dict q := List.take_subset _ _ hs
  unfold expanded_terms_set at hs2
  rw [mem_pySetUnion] at hs2
  rcases hs2 with hse | hq
  · exfalso
    have hstep : ∀ acc tok,
        expandStep dict (_build_reverse_index dict) acc tok = acc := by
      intro acc tok
      unfold expandStep
      cases halo : alookup tok (_build_reverse_index dict) with
      | none => rfl
      | some mains =>
        have hmains : ∀ m ∈ mains, m ∈ dict.map (fun q => normalize_text q.1) :=
          build_reverse_index_vals dict (tok, mains)
            (alookup_mem_pair tok mains _ halo)
        have hid : ∀ acc2, ∀ ms : List String,
            (∀ m ∈ ms, m ∈ dict.map (fun q => normalize_text q.1)) →
            ms.foldl (fun acc m => pySetUnion acc ((alookup m dict).getD [])) acc2 = acc2 := by
          intro acc2 ms
          induction ms generalizing acc2 with
          | nil => intro _; rfl
          | cons m rest ih =>
            intro hms
            rw [List.foldl_cons]
            have hm : m ∈ dict.map (fun q => normalize_text q.1) :=
              hms m (List.mem_cons_self m rest)
            rcases List.mem_map.1 hm with ⟨p, hp, hpe⟩
            rw [← hpe, h p hp]
            exact ih acc2 (fun m2 hm2 => hms m2 (List.mem_cons_of_mem m hm2))
        exact hid acc mains hmains
    rw [foldl_id_of_step_id _ _ hstep []] at hse
    cases hse
  · exact hq

/-- A dictionary whose single key `"Béton"` differs from its own
normalization `"beton"`. -/
def dictAccent : List (String × List String) :=
  [("Béton", ["beton", "ciment", "mortier"])]

/-- Witness for C10: over `{"Béton": [...]}` the query `"ciment"` gains no
synonyms — in particular `"mortier"` is not returned. -/
theorem C10_witness : "mortier" ∉ expand_query dictAccent "ciment" 10 :=
  fun hm =>
    absurd
      (C10_expand_normalized_key_lookup dictAccent "ciment" 10 (by decide)
        "mortier" hm)
      (by decide)

-- ================================================================================
-- recup/backend.py: hierarchical catalog tree
-- ================================================================================

/-- Python `str.split(sep)` for a one-character separator: empty parts kept. -/
def splitOnChar (sep : Char) : List Char → List (List Char)
  | [] => [[]]
  | c :: cs =>
    let r := splitOnChar sep cs
    if c = sep then [] :: r
    else
      match r with
      | h :: t => (c :: h) :: t
      | [] => [[c]]

/-- `code.split(".")`. -/
def pySplitDot (s : String) : List String := (splitOnChar '.' s.data).map String.mk

/-- The parsed components of a dotted hierarchical code
(`parse_code_hierarchy`). -/
structure Hierarchy where
  main : String
  title : String
  subtitle : String
  subsubtitle : String
  item : String
  detail : String
deriving DecidableEq, Repr

/-- `parse_code_hierarchy`: `None` for codes with fewer than 3 dot-delimited
segments, else the six left-to-right components, missing ones empty. -/
def parse_code_hierarchy (code : String) : Option Hierarchy :=
  let parts := pySplitDot code
  if parts.length < 3 then none
  else
    some
      { main := parts.getD 0 "", title := parts.getD 1 "",
        subtitle := parts.getD 2 "", subsubtitle := parts.getD 3 "",
        item := parts.getD 4 "", detail := parts.getD 5 "" }

/-- `identify_entry_type` (the designation argument is unused by the source). -/
def identify_entry_type (_designation code : String) : String :=
  let parts := pySplitDot code
  if parts.length = 3 ∧ (parts.getD 2 "" = "0" ∨ parts.getD 2 "" = "") then "title"
  else if parts.length = 4 ∧ (parts.getD 3 "" = "0" ∨ parts.getD 3 "" = "") then
    "subtitle"
  else if 5 ≤ parts.length then "content"
  else "content"

/-- A cleaned catalog row of `recup/backend.py` (columns `Code`,
`Désignation`, `Unité`, `Minimum`, `Moyen`, `Maximum`). -/
structure BRow where
  code : String
  designation : String
  unite : String
  minimum : String
  moyen : String
  maximum : String
deriving DecidableEq, Repr

/-- The `content_item` dict built for a content row. -/
structure ContentItem where
  index : Nat
  code : String
  designation : String
  unite : String
  minimum : String
  moyen : String
  maximum : String
  hierarchy : Hierarchy
deriving DecidableEq, Repr

structure SubtitleNode where
  subtitle : String
  subtitle_index : Option Nat
  content : List ContentItem
deriving DecidableEq, Repr

structure TitleNode where
  title : String
  title_index : Option Nat
  subtitles : List (String × SubtitleNode)
  content : List ContentItem
deriving DecidableEq, Repr

/-- The hierarchical structure: title key → title node, in insertion order. -/
abbrev HStructure : Type := List (String × TitleNode)

def emptyTitleNode : TitleNode :=
  { title := "", title_index := none, subtitles := [], content := [] }

/-- In-place update of the binding at an existing key. -/
def updAssoc {α : Type} (m : List (String × α)) (k : String) (f : α → α) :
    List (String × α) :=
  match m with
  | [] => []
  | (k2, v) :: rest => (if k2 = k then (k2, f v) else (k2, v)) :: updAssoc rest k f

def titleKeyOf (h : Hierarchy) : String :=
  h.main ++ "." ++ h.title ++ "." ++ h.subtitle

def subtitleKeyOf (h : Hierarchy) : String :=
  if h.subsubtitle ≠ "" then titleKeyOf h ++ "." ++ h.subsubtitle else titleKeyOf h

/-- `if title_key not in structure: structure[title_key] = {...}`. -/
def ensureTitle (s : HStructure) (tk : String) : HStructure :=
  if (alookup tk s).isNone then s ++ [(tk, emptyTitleNode)] else s

def mkContentItem (idx : Nat) (row : BRow) (h : Hierarchy) : ContentItem :=
  { index := idx, code := row.code, designation := row.designation,
    unite := row.unite, minimum := row.minimum, moyen := row.moyen,
    maximum := row.maximum, hierarchy := h }

/-- The fresh subtitle node created for a subtitle row. -/
def mkSubtitleNode (idx : Nat) (row : BRow) : SubtitleNode :=
  { subtitle := row.designation, subtitle_index := some idx, content := [] }

/-- `subtitle_key in structure[title_key]["subtitles"]`. -/
def subtitleExists (s : HStructure) (tk sk : String) : Bool :=
  match alookup tk s with
  | some t => (alookup sk t.subtitles).isSome
  | none => false

/-- One iteration of the `build_hierarchical_structure` loop on row `row`
with data-frame index `idx`. -/
def buildStep (s : HStructure) (idx : Nat) (row : BRow) : HStructure :=
  match parse_code_hierarchy row.code with
  | none => s
  | some h =>
    let entry_type := identify_entry_type row.designation row.code
    let title_key := titleKeyOf h
    let subtitle_key := subtitleKeyOf h
    let s1 := ensureTitle s title_key
    if entry_type = "title" then
      updAssoc s1 title_key
        (fun t => { t with title := row.designation, title_index := some idx })
    else if entry_type = "subtitle" then
      updAssoc s1 title_key (fun t =>
        if (alookup subtitle_key t.subtitles).isNone then
          { t with subtitles := t.subtitles ++ [(subtitle_key, mkSubtitleNode idx row)] }
        else
          { t with
            subtitles :=
              updAssoc t.subtitles subtitle_key (fun st =>
                { st with
                  subtitle := row.designation, subtitle_index := some idx }) })
    else
      let item := mkContentItem idx row h
      if h.subsubtitle ≠ "" ∧ subtitleExists s1 title_key subtitle_key = true then
        updAssoc s1 title_key (fun t =>
          { t with
            subtitles :=
              updAssoc t.subtitles subtitle_key (fun st =>
                { st with content := st.content ++ [item] }) })
      else
        updAssoc s1 title_key
          (fun t => { t with content := t.content ++ [item] })

/-- `build_hierarchical_structure`: one ordered pass over the rows. -/
def build_hierarchical_structure (df : List BRow) : HStructure :=
  (df.enum).foldl (fun s p => buildStep s p.1 p.2) []

theorem alookup_append {κ α : Type} [DecidableEq κ] (k : κ) :
    ∀ a b : List (κ × α), alookup k a = none →
      alookup k (a ++ b) = alookup k b := by
  intro a b ha
  induction a with
  | nil => rfl
  | cons p rest ih =>
    simp only [alookup] at ha ⊢
    by_cases hk : k = p.1
    · rw [if_pos hk] at ha
      exact Option.noConfusion ha
    · rw [if_neg hk] at ha ⊢
      exact ih ha

theorem alookup_updAssoc_self {α : Type} (k : String) (f : α → α) :
    ∀ m : List (String × α), alookup k (updAssoc m k f) = (alookup k m).map f := by
  intro m
  induction m with
  | nil => rfl
  | cons p rest ih =>
    obtain ⟨k1, v1⟩ := p
    simp only [updAssoc]
    by_cases hk : k1 = k
    · subst hk
      rw [if_pos rfl]
      simp [alookup]
    · have hk2 : ¬ (k = k1) := fun he => hk he.symm
      rw [if_neg hk]
      simp only [alookup]
      rw [if_neg hk2, if_neg hk2]
      exact ih

theorem ensureTitle_isSome (s : HStructure) (tk : String) :
    (alookup tk (ensureTitle s tk)).isSome = true := by
  unfold ensureTitle
  by_cases hn : (alookup tk s).isNone = true
  · rw [if_pos hn]
    rw [alookup_append tk s _ (Option.isNone_iff_eq_none.1 hn)]
    simp [alookup]
  · rw [if_neg hn]
    cases halo : alookup tk s with
    | none => exact absurd (by rw [halo]; rfl) hn
    | some t => rfl

/-- C5: during tree construction, a parsed content row with a non-empty
`subsubtitle` segment is appended to the content of the subtitle node keyed
by that segment exactly when that subtitle node already exists under the
row's title key at that moment (leaving the title node's own content
untouched); otherwise — empty `subsubtitle` or missing subtitle node — it is
appended to the title node's direct content (leaving the subtitle map
untouched).  Rows whose code has fewer than 3 dot-delimited segments leave
the structure unchanged, i.e. are excluded from the tree. -/
theorem C5_tree_attachment (s : HStructure) (idx : Nat) (row : BRow)
    (h : Hierarchy) (hp : parse_code_hierarchy row.code = some h)
    (hc : identify_entry_type row.designation row.code = "content") :
    (∀ (s2 : HStructure) (idx2 : Nat) (row2 : BRow),
      (pySplitDot row2.code).length < 3 → buildStep s2 idx2 row2 = s2) ∧
    (∀ t1, alookup (titleKeyOf h) (ensureTitle s (titleKeyOf h)) = some t1 →
      (h.subsubtitle ≠ "" →
        (alookup (subtitleKeyOf h) t1.subtitles).isSome = true →
        ∃ st1 t2 st2,
          alookup (subtitleKeyOf h) t1.subtitles = some st1 ∧
          alookup (titleKeyOf h) (buildStep s idx row) = some t2 ∧
          alookup (subtitleKeyOf h) t2.subtitles = some st2 ∧
          st2.content = st1.content ++ [mkContentItem idx row h] ∧
          t2.content = t1.content) ∧
      ((h.subsubtitle = "" ∨ alookup (subtitleKeyOf h) t1.subtitles = none) →
        ∃ t2,
          alookup (titleKeyOf h) (buildStep s idx row) = some t2 ∧
          t2.content = t1.content ++ [mkContentItem idx row h] ∧
          t2.subtitles = t1.subtitles)) := by
  constructor
  · intro s2 idx2 row2 hlt
    have hpn : parse_code_hierarchy row2.code = none := by
      unfold parse_code_hierarchy
      rw [if_pos hlt]
    simp [buildStep, hpn]
  · intro t1 ht1
    constructor
    · intro hss hex
      rcases Option.isSome_iff_exists.1 hex with ⟨st1, hst1⟩
      have hstep :
          buildStep s idx row =
            updAssoc (ensureTitle s (titleKeyOf h)) (titleKeyOf h) (fun t =>
              { t with
                subtitles :=
                  updAssoc t.subtitles (subtitleKeyOf h) (fun st =>
                    { st with
                      content := st.content ++ [mkContentItem idx row h] }) }) := by
        simp only [buildStep, hp]
        rw [hc]
        rw [if_neg (by decide), if_neg (by decide)]
        rw [if_pos ?_]
        constructor
        · exact hss
        · unfold subtitleExists
          rw [ht1]
          exact hex
      refine ⟨st1,
        { t1 with
          subtitles :=
            updAssoc t1.subtitles (subtitleKeyOf h) (fun st =>
              { st with content := st.content ++ [mkContentItem idx row h] }) },
        { st1 with content := st1.content ++ [mkContentItem idx row h] },
        hst1, ?_, ?_, rfl, rfl⟩
      · rw [hstep, alookup_updAssoc_self, ht1]
        rfl
      · show alookup (subtitleKeyOf h)
            (updAssoc t1.subtitles (subtitleKeyOf h) (fun st =>
              { st with content := st.content ++ [mkContentItem idx row h] })) =
          some { st1 with content := st1.content ++ [mkContentItem idx row h] }
        rw [alookup_updAssoc_self, hst1]
        rfl
    · intro hor
      have hcond : ¬ (h.subsubtitle ≠ "" ∧
          subtitleExists (ensureTitle s (titleKeyOf h)) (titleKeyOf h)
            (subtitleKeyOf h) = true) := by
        rintro ⟨hss, hexi⟩
        rcases hor with hor | hor
        · exact hss hor
        · unfold subtitleExists at hexi
          rw [ht1] at hexi
          have hexi2 : (alookup (subtitleKeyOf h) t1.subtitles).isSome = true := hexi
          rw [hor] at hexi2
          exact Bool.noConfusion hexi2
      have hstep :
          buildStep s idx row =
            updAssoc (ensureTitle s (titleKeyOf h)) (titleKeyOf h)
              (fun t => { t with content := t.content ++ [mkContentItem idx row h] }) := by
        simp only [buildStep, hp]
        rw [hc]
        rw [if_neg (by decide), if_neg (by decide), if_neg hcond]
      refine ⟨{ t1 with content := t1.content ++ [mkContentItem idx row h] },
        ?_, rfl, rfl⟩
      rw [hstep, alookup_updAssoc_self, ht1]
      rfl

/-- A concrete content row (`03.1.1.1.0.001`) and its parsed hierarchy. -/
def rowC5 : BRow :=
  { code := "03.1.1.1.0.001", designation := "semelle beton", unite := "m3",
    minimum := "1", moyen := "2", maximum := "3" }

def hierC5 : Hierarchy :=
  { main := "03", title := "1", subtitle := "1", subsubtitle := "1",
    item := "0", detail := "001" }

/-- Witness for C5: starting from an empty structure, the subtitle node
`03.1.1.1` does not exist yet, so the content row lands in the title node's
direct content. -/
theorem C5_witness :
    ((alookup (titleKeyOf hierC5) (buildStep [] 0 rowC5)).getD
        emptyTitleNode).content = [mkContentItem 0 rowC5 hierC5] := by
  obtain ⟨t2, h1, h2, h3⟩ :=
    ((C5_tree_attachment [] 0 rowC5 hierC5 (by decide) (by decide)).2
      emptyTitleNode (by decide)).2 (Or.inr (by decide))
  rw [h1]
  simp only [Option.getD_some]
  rw [h2]
  rfl

-- ================================================================================
-- recup/backend.py: scope resolution, scoring and the /search route
-- ================================================================================

namespace Recup

/-- `str.upper()` over the modelled repertoire (inverse of `LOWER_TABLE`). -/
def UPPER_TABLE : List (Char × Char) := LOWER_TABLE.map (fun p => (p.2, p.1))

def upperChar (c : Char) : Char := (alookup c UPPER_TABLE).getD c

def pyUpper (s : String) : String := String.mk (s.data.map upperChar)

def pyLower (s : String) : String := String.mk (s.data.map lowerChar)

/-- Python `sub in s` on strings. -/
def pyIn (sub s : String) : Bool := strContains sub.data s.data

/-- `re.sub(r"[^\w]", "", word)`. -/
def word_clean (w : String) : String := String.mk (w.data.filter isWordChar)

/-- `expand_query` of `recup/backend.py`: for every dictionary entry and
every cleaned query word of length ≥ 3, union in the whole synonym list when
the word equals a lower-cased synonym or shares a substring with one; then
union in the original query words of length > 2. -/
def expand_query (tdict : List (String × List String)) (query : String) :
    List String :=
  let query_lower := pyLower query
  let expanded := tdict.foldl
    (fun acc p =>
      (pyWords query_lower).foldl
        (fun acc w =>
          let wc := word_clean w
          if wc.length < 3 then acc
          else if wc ∈ p.2.map pyLower then pySetUnion acc p.2
          else if p.2.any (fun s => pyIn wc (pyLower s) || pyIn (pyLower s) wc) then
            pySetUnion acc p.2
          else acc)
        acc)
    []
  pySetUnion expanded ((pyWords query_lower).filter (fun w => w.length > 2))

/-- A `\b` boundary of `re` at position `i` of `l`: exactly one neighbour is
a word character (positions outside the text count as non-word). -/
def bdryAt (l : List Char) (i : Nat) : Bool :=
  let before := if i = 0 then false else isWordChar (l.getD (i - 1) ' ')
  let after := if i < l.length then isWordChar (l.getD i ' ') else false
  before != after

/-- `re.search(r"\b" + re.escape(term) + r"\b", hay) is not None`. -/
def reSearchWord (term hay : String) : Bool :=
  (List.range (hay.data.length + 1)).any (fun i =>
    term.data.isPrefixOf (hay.data.drop i) && bdryAt hay.data i &&
      bdryAt hay.data (i + term.data.length))

/-- `calculate_relevance_score`: +10 per original term occurring in the
lower-cased designation (+5 when word-bounded), +3 per expanded term (+2
when word-bounded), +20 when a multi-word query has all original terms
present, -1 for designations longer than 100 characters, +3 when the
designation starts with any term. -/
def calculate_relevance_score (designation : String)
    (query_terms expanded_terms : List String) : Int :=
  let dl := pyLower designation
  let score : Int := query_terms.foldl
    (fun sc term =>
      if pyIn term dl then
        sc + 10 + (if reSearchWord term dl then 5 else 0)
      else sc) 0
  let score := expanded_terms.foldl
    (fun sc term =>
      if pyIn term dl then
        sc + 3 + (if reSearchWord term dl then 2 else 0)
      else sc) score
  let score :=
    if query_terms.length > 1 ∧
        query_terms.countP (fun t => pyIn t dl) = query_terms.length then
      score + 20
    else score
  let score := if designation.length > 100 then score - 1 else score
  let score :=
    if (query_terms ++ expanded_terms).any (fun t => pyStartswith dl t) then
      score + 3
    else score
  score

/-- `get_price_by_type`. -/
def get_price_by_type (item : ContentItem) (price_type : String) : String :=
  if pyUpper price_type = "MINIMUM" then item.minimum
  else if pyUpper price_type = "MAXIMUM" then item.maximum
  else item.moyen

/-- One entry of `TITLE_SUBTITLE_DICTIONARY`: matching patterns plus the
subtitle-label → keyword-list mapping. -/
structure TitleConfig where
  patterns : List String
  subtitles : List (String × List String)
deriving DecidableEq, Repr

abbrev TSDict : Type := List (String × TitleConfig)

structure TitleMatch where
  title_key : String
  title_data : TitleNode
  excel_title : String
deriving DecidableEq, Repr

structure SubtitleMatch where
  title_key : String
  subtitle_key : String
  subtitle_data : SubtitleNode
deriving DecidableEq, Repr

/-- `find_matching_titles_in_csv`: curated-pattern pass (when the requested
label is a dictionary key), then the fuzzy word-substring pass, for each
requested title. -/
def find_matching_titles_in_csv (tsd : TSDict) (excel_titles : List String)
    (hier : HStructure) : List TitleMatch :=
  excel_titles.foldl
    (fun acc excel_title =>
      let etu := pyUpper excel_title
      let acc :=
        match alookup etu tsd with
        | some cfg =>
          hier.foldl
            (fun acc p =>
              if cfg.patterns.any (fun pat => pyIn (pyUpper pat) (pyUpper p.2.title)) then
                acc ++ [{ title_key := p.1, title_data := p.2, excel_title := excel_title }]
              else acc)
            acc
        | none => acc
      hier.foldl
        (fun acc p =>
          if (pyWords etu).any
              (fun w => w.length > 3 && pyIn w (pyUpper p.2.title)) then
            acc ++ [{ title_key := p.1, title_data := p.2, excel_title := excel_title }]
          else acc)
        acc)
    []

/-- `find_matching_subtitles_in_csv`: curated mapping keyed by requested
title then subtitle label, falling back to the fuzzy word-substring pass
when the curated pass found nothing. -/
def find_matching_subtitles_in_csv (tsd : TSDict) (excel_subtitle : String)
    (excel_titles : List String) (hier : HStructure) : List SubtitleMatch :=
  if excel_subtitle = "" then []
  else
    let esu := pyUpper excel_subtitle
    let ms := excel_titles.foldl
      (fun acc excel_title =>
        match alookup (pyUpper excel_title) tsd with
        | some cfg =>
          cfg.subtitles.foldl
            (fun acc sm =>
              if pyIn (pyUpper sm.1) esu || pyIn esu (pyUpper sm.1) then
                hier.foldl
                  (fun acc tp =>
                    tp.2.subtitles.foldl
                      (fun acc sp =>
                        if sm.2.any (fun tgt => pyIn (pyUpper tgt) (pyUpper sp.2.subtitle)) then
                          acc ++ [{ title_key := tp.1, subtitle_key := sp.1,
                                    subtitle_data := sp.2 }]
                        else acc)
                      acc)
                  acc
              else acc)
            acc
        | none => acc)
      []
    if ms = [] then
      hier.foldl
        (fun acc tp =>
          tp.2.subtitles.foldl
            (fun acc sp =>
              if (pyWords esu).any
                  (fun w => w.length > 3 && pyIn w (pyUpper sp.2.subtitle)) then
                acc ++ [{ title_key := tp.1, subtitle_key := sp.1,
                          subtitle_data := sp.2 }]
              else acc)
            acc)
        []
    else ms

/-- The `search_scope` computation of the `/search` route (source lines
533-573): titles with a subtitle take the matched subtitles' content;
titles alone take each matched title's direct content plus all its
subtitles' content; a subtitle alone takes the fuzzy subtitle pass; no
filters give the empty scope. -/
def resolveScope (tsd : TSDict) (hier : HStructure)
    (selected_titles : List String) (subtitle : String) : List ContentItem :=
  if selected_titles ≠ [] then
    if subtitle ≠ "" then
      (find_matching_subtitles_in_csv tsd subtitle selected_titles hier).foldl
        (fun acc m => acc ++ m.subtitle_data.content) []
    else
      (find_matching_titles_in_csv tsd selected_titles hier).foldl
        (fun acc m =>
          m.title_data.subtitles.foldl (fun acc sp => acc ++ sp.2.content)
            (acc ++ m.title_data.content))
        []
  else if subtitle ≠ "" then
    hier.foldl
      (fun acc tp =>
        tp.2.subtitles.foldl
          (fun acc sp =>
            if (pyWords (pyUpper subtitle)).any
                (fun w => w.length > 3 && pyIn w (pyUpper sp.2.subtitle)) then
              acc ++ sp.2.content
            else acc)
          acc)
      []
  else []

/-- The backend's accent-folding table (`preprocess_text`). -/
def ACCENTS_BACKEND : List (Char × Char) :=
  [('é','e'),('è','e'),('ê','e'),('ë','e'),('à','a'),('â','a'),('ä','a'),
   ('ù','u'),('û','u'),('ü','u'),('ô','o'),('ö','o'),('ç','c'),('î','i'),('ï','i')]

/-- The backend's abbreviation table (`preprocess_text`), in source order. -/
def ABBREV_BACKEND : List (String × String) :=
  [("allu", "aluminium"), ("alu", "aluminium"), ("galva", "galvanise"),
   ("metal", "metallique"), ("m2", "metre carre"), ("m3", "metre cube")]

def STOP_WORDS_BACKEND : List String :=
  ["de", "la", "le", "et", "en", "un", "une", "avec", "du", "des", "les",
   "pour", "sur", "dans", "par"]

/-- `preprocess_text` of `recup/backend.py`: lower-case, fold accents,
expand the six abbreviations on word boundaries; with `for_similarity`,
additionally drop stop words and words of length ≤ 2 and rejoin. -/
def preprocess_text (text : String) (for_similarity : Bool) : String :=
  let t := (pyLower text).data.map (fun c => (alookup c ACCENTS_BACKEND).getD c)
  let t := ABBREV_BACKEND.foldl (fun acc p => subWordB p.1.data p.2.data acc) t
  if for_similarity then
    String.intercalate " "
      ((pyWords (String.mk t)).filter
        (fun w => w ∉ STOP_WORDS_BACKEND ∧ w.length > 2))
  else String.mk t

/-- A row of `df_search` (columns `Désignation`, `Unité`, `Minimum`,
`Moyen`, `Maximum`; its precomputed embedding is reached only through the
abstract similarity provider). -/
structure SRow where
  designation : String
  unite : String
  minimum : String
  moyen : String
  maximum : String
deriving DecidableEq, Repr

/-- An entry of `results_with_scores` in `search_global` (keyword or
similarity scored; the data-frame index is the position). -/
structure GResult where
  index : Nat
  designation : String
  prix : String
  unite : String
  score : Rat
deriving DecidableEq, Repr

/-- A response entry; the hierarchical path also carries the item code. -/
structure Suggestion where
  designation : String
  prix : String
  unite : String
  code : Option String
  score : Rat
deriving DecidableEq, Repr

/-- The external similarity provider, `encode` and `cos_sim` composed:
prepared query text and catalog row to similarity.  Its internals are an
external collaborator of the specification and stay abstract. -/
abbrev SimProvider : Type := String → SRow → Rat

/-- Python 3 `round(x, 2)` on exact values: half-to-even at two decimals. -/
def round2 (x : Rat) : Rat :=
  let y := x * 100
  let f := Int.floor y
  let r := y - f
  let n : Int :=
    if r < 1/2 then f
    else if r > 1/2 then f + 1
    else if f % 2 = 0 then f else f + 1
  (n : Rat) / 100

/-- The per-row price selection of `search_global`. -/
def priceOfSRow (row : SRow) (price_type : String) : String :=
  if pyUpper price_type = "MINIMUM" then row.minimum
  else if pyUpper price_type = "MAXIMUM" then row.maximum
  else row.moyen

/-- The keyword pass of `search_global`, in data-frame scan order. -/
def globalKeywordResults (tdict : List (String × List String))
    (query : String) (price_type : String) (df_search : List SRow) :
    List GResult :=
  let original_terms := ((pyWords query).filter (fun w => w.length > 2)).map pyLower
  let expanded_terms := expand_query tdict query
  df_search.enum.foldl
    (fun acc p =>
      let sc := calculate_relevance_score p.2.designation original_terms expanded_terms
      if sc > 0 then
        acc ++ [{ index := p.1, designation := p.2.designation,
                  prix := priceOfSRow p.2 price_type, unite := p.2.unite,
                  score := (sc : Rat) }]
      else acc)
    []

/-- The similarity supplement of `search_global` (the `else` branch body):
encode the expanded-term text, score the rows not already surfaced, keep
similarity > 0.35 at `similarity × 10`, merge and re-sort. -/
def semantic_pass (tdict : List (String × List String)) (sim : SimProvider)
    (query : String) (price_type : String) (df_search : List SRow)
    (base : List GResult) : List GResult :=
  let processed_query :=
    preprocess_text (String.intercalate " " (expand_query tdict query)) true
  if processed_query ≠ "" then
    let found := base.map (fun r => r.index)
    let remaining := df_search.enum.filter (fun p => p.1 ∉ found)
    let sims := remaining.foldl
      (fun acc p =>
        if sim processed_query p.2 > 35/100 then
          acc ++ [{ index := p.1, designation := p.2.designation,
                    prix := priceOfSRow p.2 price_type, unite := p.2.unite,
                    score := sim processed_query p.2 * 10 }]
        else acc)
      []
    sortDescBy (fun r => r.score) (base ++ sims)
  else base

/-- The `final_results` of `search_global`: with a high-confidence top
keyword score (> 20) keep the prefix of the sorted keyword results above
half the top score (the loop breaks at the first below-threshold entry);
otherwise supplement the keyword results with the similarity pass. -/
def searchGlobalFinal (tdict : List (String × List String)) (sim : SimProvider)
    (query : String) (price_type : String) (df_search : List SRow) :
    List GResult :=
  match sortDescBy (fun r => r.score)
      (globalKeywordResults tdict query price_type df_search) with
  | [] => semantic_pass tdict sim query price_type df_search []
  | r :: rest =>
    if r.score > 20 then
      (r :: rest).takeWhile (fun x => x.score ≥ r.score * (1/2))
    else semantic_pass tdict sim query price_type df_search (r :: rest)

/-- `search_global`: keyword scoring, stable descending sort, the
threshold-or-similarity branch, truncation and formatting. -/
def search_global (tdict : List (String × List String)) (sim : SimProvider)
    (query : String) (price_type : String) (df_search : List SRow)
    (limit : Nat) : List Suggestion :=
  ((searchGlobalFinal tdict sim query price_type df_search).take limit).map
    (fun r =>
      { designation := r.designation, prix := r.prix, unite := r.unite,
        code := none, score := round2 r.score })

/-- The scoped (hierarchical) result list of the `/search` route. -/
def scopedResults (tdict : List (String × List String)) (query : String)
    (price_type : String) (scope : List ContentItem) : List Suggestion :=
  let original_terms := ((pyWords query).filter (fun w => w.length > 2)).map pyLower
  let expanded_terms := expand_query tdict query
  scope.foldl
    (fun acc item =>
      let sc := calculate_relevance_score item.designation original_terms expanded_terms
      if sc > 0 then
        acc ++ [{ designation := item.designation,
                  prix := get_price_by_type item price_type,
                  unite := item.unite, code := some item.code,
                  score := (sc : Rat) }]
      else acc)
    []

/-- The `/search` route (source lines 491-624): guard on the stripped query,
resolve the hierarchical scope, fall back to `search_global` when the scope
is empty, else score the scope, sort, truncate and format. -/
def searchRoute (tsd : TSDict) (tdict : List (String × List String))
    (hier : HStructure) (df_search : List SRow) (sim : SimProvider)
    (q : String) (titles : List String) (subtitle : String)
    (price_type : String) (limit : Nat) : List Suggestion :=
  if (pyStrip q).length < 2 then []
  else if resolveScope tsd hier titles (pyStrip subtitle) = [] then
    search_global tdict sim (pyStrip q) price_type df_search limit
  else
    ((sortDescBy (fun r => r.score)
        (scopedResults tdict (pyStrip q) price_type
          (resolveScope tsd hier titles (pyStrip subtitle)))).take limit).map
      (fun r => { r with score := round2 r.score })

-- --------------------------------------------------------------------------------
-- Claim C8: empty-scope fallback to the global search
-- --------------------------------------------------------------------------------

theorem foldl_length_le {α ι : Type} (f : List α → ι → List α)
    (hf : ∀ acc i, acc.length ≤ (f acc i).length) (l : List ι) :
    ∀ acc, acc.length ≤ (l.foldl f acc).length := by
  induction l with
  | nil => intro acc; simp
  | cons i is ih =>
    intro acc
    rw [List.foldl_cons]
    exact le_trans (hf acc i) (ih (f acc i))

theorem foldl_length_lt {α ι : Type} (f : List α → ι → List α)
    (hf : ∀ acc i, acc.length ≤ (f acc i).length) (l : List ι) (i : ι)
    (hi : i ∈ l) (hgrow : ∀ acc, acc.length < (f acc i).length) :
    ∀ acc, acc.length < (l.foldl f acc).length := by
  induction l with
  | nil => cases hi
  | cons j js ih =>
    intro acc
    rw [List.foldl_cons]
    rcases List.mem_cons.1 hi with rfl | hi2
    · exact lt_of_lt_of_le (hgrow acc) (foldl_length_le f hf js (f acc i))
    · exact lt_of_le_of_lt (hf acc j) (ih hi2 (f acc j))

theorem mem_enum_of_mem {α : Type} (l : List α) (x : α) (hx : x ∈ l) :
    ∃ i, (i, x) ∈ l.enum := by
  rcases List.mem_iff_getElem.1 hx with ⟨i, hi, he⟩
  exact ⟨i, List.mk_mem_enum_iff_getElem?.2 (by rw [List.getElem?_eq_getElem hi, he])⟩

theorem globalKeywordResults_ne_nil (tdict : List (String × List String))
    (query : String) (price_type : String) (df_search : List SRow)
    (hmatch : ∃ row ∈ df_search,
      0 < calculate_relevance_score row.designation
          (((pyWords query).filter (fun w => w.length > 2)).map pyLower)
          (expand_query tdict query)) :
    globalKeywordResults tdict query price_type df_search ≠ [] := by
  rcases hmatch with ⟨row, hrow, hsc⟩
  rcases mem_enum_of_mem df_search row hrow with ⟨i, hi⟩
  have hlt : ([] : List GResult).length <
      (globalKeywordResults tdict query price_type df_search).length := by
    unfold globalKeywordResults
    refine foldl_length_lt _ ?_ df_search.enum (i, row) hi ?_ []
    · intro acc p
      by_cases hc :
          calculate_relevance_score p.2.designation
            (((pyWords query).filter (fun w => w.length > 2)).map pyLower)
            (expand_query tdict query) > 0
      · rw [if_pos hc]; simp
      · rw [if_neg hc]
    · intro acc
      rw [if_pos hsc]
      simp
  intro h0
  rw [h0] at hlt
  simp at hlt

theorem semantic_pass_ne_nil (tdict : List (String × List String))
    (sim : SimProvider) (query : String) (price_type : String)
    (df_search : List SRow) (base : List GResult) (hb : base ≠ []) :
    semantic_pass tdict sim query price_type df_search base ≠ [] := by
  have key : ∀ sims : List GResult,
      sortDescBy (fun r : GResult => r.score) (base ++ sims) ≠ [] := by
    intro sims h0
    have hlen := (sortDescBy_perm (fun r : GResult => r.score) (base ++ sims)).length_eq
    rw [h0] at hlen
    simp only [List.length_nil, List.length_append] at hlen
    have hb2 := List.length_pos.2 hb
    omega
  unfold semantic_pass
  by_cases hpq :
      preprocess_text (String.intercalate " " (expand_query tdict query)) true ≠ ""
  · rw [if_pos hpq]
    exact key _
  · rw [if_neg hpq]
    exact hb

theorem searchGlobalFinal_ne_nil (tdict : List (String × List String))
    (sim : SimProvider) (query : String) (price_type : String)
    (df_search : List SRow)
    (hmatch : ∃ row ∈ df_search,
      0 < calculate_relevance_score row.designation
          (((pyWords query).filter (fun w => w.length > 2)).map pyLower)
          (expand_query tdict query)) :
    searchGlobalFinal tdict sim query price_type df_search ≠ [] := by
  have hkw := globalKeywordResults_ne_nil tdict query price_type df_search hmatch
  unfold searchGlobalFinal
  rcases hsorted : sortDescBy (fun r : GResult => r.score)
      (globalKeywordResults tdict query price_type df_search) with _ | ⟨r, rest⟩
  · exfalso
    have hlen := (sortDescBy_perm (fun r : GResult => r.score)
      (globalKeywordResults tdict query price_type df_search)).length_eq
    rw [hsorted] at hlen
    have hpos := List.length_pos.2 hkw
    simp only [List.length_nil] at hlen
    omega
  · show (if r.score > 20 then
        (r :: rest).takeWhile (fun x => x.score ≥ r.score * (1/2))
      else semantic_pass tdict sim query price_type df_search (r :: rest)) ≠ []
    by_cases h20 : r.score > 20
    · rw [if_pos h20, List.takeWhile_cons]
      rw [if_pos (by
        rw [decide_eq_true_eq]
        have hpos : (0 : Rat) < r.score := lt_trans (by norm_num) h20
        linarith)]
      simp
    · rw [if_neg h20]
      exact semantic_pass_ne_nil tdict sim query price_type df_search
        (r :: rest) (by simp)

/-- C8: when hierarchical scope resolution yields nothing, the `/search`
route answers exactly as an unrestricted request (no titles, no subtitle)
would — it falls back to the full-catalog global search — and whenever the
query passes the length guard, the limit is positive and some catalog row
has a positive keyword score, that answer is non-empty. -/
theorem C8_empty_scope_fallback (tsd : TSDict)
    (tdict : List (String × List String)) (hier : HStructure)
    (df_search : List SRow) (sim : SimProvider) (q : String)
    (titles : List String) (subtitle : String) (price_type : String)
    (limit : Nat)
    (hscope : resolveScope tsd hier titles (pyStrip subtitle) = []) :
    searchRoute tsd tdict hier df_search sim q titles subtitle price_type limit =
      searchRoute tsd tdict hier df_search sim q [] "" price_type limit ∧
    (2 ≤ (pyStrip q).length → 0 < limit →
      (∃ row ∈ df_search,
        0 < calculate_relevance_score row.designation
            (((pyWords (pyStrip q)).filter (fun w => w.length > 2)).map pyLower)
            (expand_query tdict (pyStrip q))) →
      searchRoute tsd tdict hier df_search sim q titles subtitle price_type
        limit ≠ []) := by
  have hscope0 : resolveScope tsd hier [] (pyStrip "") = [] := by
    unfold resolveScope
    rw [if_neg (by simp), if_neg (by decide)]
  constructor
  · unfold searchRoute
    by_cases hg : (pyStrip q).length < 2
    · rw [if_pos hg, if_pos hg]
    · rw [if_neg hg, if_neg hg, hscope, hscope0]
  · intro hg hlim hmatch
    have hg2 : ¬ (pyStrip q).length < 2 := by omega
    unfold searchRoute
    rw [if_neg hg2, hscope, if_pos rfl]
    unfold search_global
    have hfin := searchGlobalFinal_ne_nil tdict sim (pyStrip q) price_type
      df_search hmatch
    intro h0
    have hlen := congrArg List.length h0
    simp only [List.length_map, List.length_take, List.length_nil] at hlen
    rcases Nat.min_eq_zero_iff.1 hlen with h | h
    · omega
    · exact hfin (List.length_eq_zero.1 h)

/-- A one-row catalog matched by the query `"semelle"`. -/
def srowC8 : SRow :=
  { designation := "semelle beton", unite := "m3", minimum := "100",
    moyen := "200", maximum := "300" }

/-- Witness for C8: the requested title `"FOO"` matches nothing in an empty
tree, the scope is empty, and the query `"semelle"` still returns results
through the global fallback. -/
theorem C8_witness :
    searchRoute [] [] [] [srowC8] (fun _ _ => 0) "semelle" ["FOO"] ""
      "Moyen" 20 ≠ [] :=
  (C8_empty_scope_fallback [] [] [] [srowC8] (fun _ _ => 0) "semelle" ["FOO"]
    "" "Moyen" 20 (by decide)).2 (by decide) (by decide)
    ⟨srowC8, by decide, by decide⟩

end Recup

end ExcelCivil
